import Mathlib

/-!
MIOpen: the tensor descriptor and the type-erased solver handle.

A shallow embedding of `src/tensor.cpp` (`miopen::TensorDescriptor`) and of
`src/include/miopen/any_solver.hpp` (`miopen::solver::AnySolver`).

Conventions of the embedding:

* `std::size_t` values are natural numbers, every arithmetic operation on them is
  reduced modulo `2 ^ 64` (`mulSz`, `addSz`, `subSz`); an `int` converted to
  `std::size_t` goes through `toSz`.
* An `int` is an integer in `[INT_MIN, INT_MAX]` (`IsInt`, 32 bits). Functions that
  take `int` coordinates are written over all integers; statements about the tuples
  that exist (an offset is reached, a bound is attained) are about tuples of `IsInt`
  coordinates.
* `std::vector` and `std::initializer_list` are lists.
* A failed `assert`, a `MIOPEN_THROW` and an access outside a container are the three
  ways an operation can fail to produce a value (`Failure`); asserts are modelled as
  enabled.
* Calls a handle makes into its solver, the database and a database record are
  written to an event trace, so that "is not called" is a statement about the trace.
-/

namespace miopen

/-! ## Failure modes -/

/-- The ways an operation ends without a value. -/
inductive Failure where
  /-- A failed `assert(...)`. -/
  | assertion : Failure
  /-- The exception raised by `MIOPEN_THROW(msg)`. -/
  | exception (msg : String) : Failure
  /-- Undefined behaviour: an access outside a container, a division by zero. -/
  | undefined : Failure
  deriving DecidableEq, Repr

/-! ## `std::size_t` arithmetic -/

/-- The number of values of `std::size_t` (64 bit). -/
abbrev size_t_mod : Nat := 18446744073709551616

/-- Source: `std::multiplies<std::size_t>`. -/
def mulSz (a b : Nat) : Nat := (a * b) % size_t_mod

/-- Addition of two `std::size_t`. -/
def addSz (a b : Nat) : Nat := (a + b) % size_t_mod

/-- Source: `std::minus<std::size_t>`: wraps around below zero. -/
def subSz (a b : Nat) : Nat := (a + (size_t_mod - b % size_t_mod)) % size_t_mod

/-- The conversion of an `int` to `std::size_t`: a negative value wraps around. -/
def toSz (x : Int) : Nat := (x % (size_t_mod : Int)).toNat

/-- The least value of the type `int` (32 bits, two's complement). -/
def INT_MIN : Int := -2147483648

/-- The greatest value of the type `int`. -/
def INT_MAX : Int := 2147483647

/-- The integer `c` is a value of the type `int`. `GetIndex` takes its coordinates as
`int`, so the tuples it can be called with are those whose coordinates satisfy `IsInt`. -/
def IsInt (c : Int) : Prop := INT_MIN ≤ c ∧ c ≤ INT_MAX

instance (c : Int) : Decidable (IsInt c) :=
  inferInstanceAs (Decidable (INT_MIN ≤ c ∧ c ≤ INT_MAX))

/-! ## Standard algorithms used by `tensor.cpp` -/

/-- Source: `std::partial_sum(first, last, out, op)`: the outputs are the first element, then
the running `op` of the accumulator with each further element. -/
def partial_sum (op : Nat → Nat → Nat) : List Nat → List Nat
  | [] => []
  | x :: xs => List.scanl op x xs

/-- Source: `std::inner_product(first1, last1, first2, init)` over `std::size_t`: the second
range is read as far as the first one goes, and reading past its end is undefined. -/
def inner_product : List Nat → List Nat → Nat → Except Failure Nat
  | [], _, acc => .ok acc
  | _ :: _, [], _ => .error .undefined
  | a :: as, b :: bs, acc => inner_product as bs (addSz acc (mulSz a b))

/-- Source: `std::accumulate(first, last, init, std::multiplies<std::size_t>())`. -/
def accumulate (xs : List Nat) (init : Nat) : Nat := xs.foldl mulSz init

/-- Writing the sequence `src` through an output iterator that starts at position
`pos` of `dst`. -/
def writeAt (dst : List Nat) (pos : Nat) (src : List Nat) : List Nat :=
  dst.take pos ++ src ++ dst.drop (pos + src.length)

/-! ## Enumerations of `miopen.h` that `tensor.cpp` switches over -/

/-- The element types named in `TensorDescriptor::GetNumBytes`; `other` stands for any
enumerator value outside that switch. -/
inductive miopenDataType_t where
  | miopenHalf | miopenFloat | miopenInt32 | miopenInt8 | miopenInt8x4
  | miopenBFloat16 | miopenDouble
  | other (tag : Nat)
  deriving DecidableEq, Repr

/-- The layouts named in `TensorDescriptor::GetLayout_str`; `other` stands for any
enumerator value outside that switch. -/
inductive miopenTensorLayout_t where
  | miopenTensorNCHW | miopenTensorNHWC | miopenTensorCHWN
  | miopenTensorNCHWc4 | miopenTensorNCHWc8
  | miopenTensorCHWNc4 | miopenTensorCHWNc8
  | miopenTensorNCDHW | miopenTensorNDHWC
  | other (tag : Nat)
  deriving DecidableEq, Repr

open miopenDataType_t miopenTensorLayout_t

/-! ## `TensorDescriptor` -/

/-- The data members of `miopen::TensorDescriptor`. -/
structure TensorDescriptor where
  lens : List Nat
  strides : List Nat
  packed : Bool
  type : miopenDataType_t
  tensorLayout : miopenTensorLayout_t
  vector_length : Nat
  deriving DecidableEq, Repr

namespace TensorDescriptor

/-- Source: `TensorDescriptor::CalculateVectorLength`. -/
def CalculateVectorLength (d : TensorDescriptor) : TensorDescriptor :=
  { d with
    vector_length :=
      if d.tensorLayout = miopenTensorCHWNc8 ∨ d.tensorLayout = miopenTensorNCHWc8 then 8
      else if d.tensorLayout = miopenTensorCHWNc4 ∨ d.tensorLayout = miopenTensorNCHWc4 then 4
      else 1 }

/-- The statement `lens[i] /= v`: `operator[]` outside the vector and a division by
zero are undefined. -/
def divAt (lens : List Nat) (i v : Nat) : Except Failure (List Nat) :=
  if i < lens.length ∧ v ≠ 0 then .ok (lens.set i (lens.getD i 0 / v)) else .error .undefined

/-- The loop `for(int i = 0; i < k; i++) strides[i] *= v;`. -/
def scaleFirst (v : Nat) : Nat → List Nat → List Nat
  | 0, s => s
  | _ + 1, [] => []
  | k + 1, x :: s => mulSz x v :: scaleFirst v k s

/-- The first statement of `CalculateStrides` after the early return: the channel
length of a vectorized layout is divided by the vector length (`lens[1]` for NCHWc,
`lens[0]` for CHWNc). -/
def divideChannel (d : TensorDescriptor) : Except Failure (List Nat) :=
  if d.tensorLayout = miopenTensorNCHWc4 ∨ d.tensorLayout = miopenTensorNCHWc8 then
    divAt d.lens 1 d.vector_length
  else if d.tensorLayout = miopenTensorCHWNc4 ∨ d.tensorLayout = miopenTensorCHWNc8 then
    divAt d.lens 0 d.vector_length
  else .ok d.lens

/-- Source: `TensorDescriptor::CalculateStrides`. The reverse iterators are positions in the
reversed sequences: the input of `std::partial_sum` is the reversed lengths without
their last element (`lens[0]`), its output starts at the second element of the
reversed strides. -/
def CalculateStrides (d : TensorDescriptor) : Except Failure TensorDescriptor :=
  let strides0 := List.replicate d.lens.length 0
  if strides0.isEmpty then .ok { d with strides := strides0 }
  else do
    let lens1 ← divideChannel d
    let strides1 := strides0.set (strides0.length - 1) d.vector_length
    let out := partial_sum mulSz (lens1.reverse.take (lens1.length - 1))
    let strides2 := (writeAt strides1.reverse 1 out).reverse
    let strides3 := scaleFirst d.vector_length (strides2.length - 1) strides2
    pure { d with lens := lens1, strides := strides3 }

/-- Source: `TensorDescriptor::IsVectorized`. -/
def IsVectorized (d : TensorDescriptor) : Bool := decide (d.vector_length > 1)

/-- Source: `TensorDescriptor::GetSize`; the count is taken as it is (no truncation to `int`). -/
def GetSize (d : TensorDescriptor) : Except Failure Nat :=
  if d.lens.length = d.strides.length then .ok d.lens.length else .error .assertion

/-- Source: `TensorDescriptor::GetElementSize`. -/
def GetElementSize (d : TensorDescriptor) : Except Failure Nat :=
  if d.lens.length = d.strides.length then .ok (accumulate d.lens d.vector_length)
  else .error .assertion

/-- Source: `TensorDescriptor::GetElementSpace`. -/
def GetElementSpace (d : TensorDescriptor) : Except Failure Nat := do
  let maxIndices := List.zipWith subSz d.lens (List.replicate d.lens.length 1)
  let s ← inner_product maxIndices d.strides 0
  pure (addSz s d.vector_length)

/-- Source: `TensorDescriptor::GetLayout_str`. -/
def GetLayout_str (d : TensorDescriptor) : String :=
  match d.tensorLayout with
  | miopenTensorNCHW => "NCHW"
  | miopenTensorNHWC => "NHWC"
  | miopenTensorNCHWc4 => "NCHWc"
  | miopenTensorNCHWc8 => "NCHWc"
  | miopenTensorCHWN => "CHWN"
  | miopenTensorCHWNc4 => "CHWNc"
  | miopenTensorCHWNc8 => "CHWNc"
  | miopenTensorNCDHW => "NCDHW"
  | miopenTensorNDHWC => "NDHWC"
  | .other _ => "Unknown tensor layout"

/-- Source: `TensorDescriptor::GetIndex(std::initializer_list<int> l)`. Each coordinate is an
`int` that the inner product converts to `std::size_t`; in the asserts `l.size() - 1`
is a `std::size_t` subtraction. Reading `*(l.begin() + k)` past the end of `l` is
undefined. The function is written over all integers; the tuples of the source are
those whose coordinates are values of `int` (`IsInt`). -/
def GetIndex (d : TensorDescriptor) (l : List Int) : Except Failure Nat :=
  if GetLayout_str d = "CHWNc" then do
    let n ← GetSize d
    if subSz l.length 1 ≤ n then
      match l with
      | l0 :: l1 :: l2 :: l3 :: l4 :: _ =>
        let l_chwn := [l0, l2, l3, l4, l1]
        inner_product ((l_chwn.drop 1).map toSz) d.strides (toSz (l_chwn.headD 0))
      | _ => .error .undefined
    else .error .assertion
  else if ¬ IsVectorized d then do
    let n ← GetSize d
    if l.length ≤ n then inner_product (l.map toSz) d.strides 0
    else .error .assertion
  else do
    let n ← GetSize d
    if subSz l.length 1 ≤ n then
      match l with
      | l0 :: rest => inner_product (rest.map toSz) d.strides (toSz l0)
      | [] => .error .undefined
    else .error .assertion

/-! ### Constructors

The overloads of `TensorDescriptor::TensorDescriptor` get one name each. An overload
without a layout argument leaves `tensorLayout` at the default member initialiser of
`tensor.hpp`, which is a parameter here (`dflt`). Members that a constructor does not
name in its initialiser list are written before they are read (`vector_length` by
`CalculateVectorLength`, `strides` by `CalculateStrides`, `packed` by the body), the
values given to them below are placeholders. -/

/-- Source: `TensorDescriptor(miopenDataType_t t, std::initializer_list<std::size_t> plens)`. -/
def ctor_lens (dflt : miopenTensorLayout_t) (t : miopenDataType_t) (plens : List Nat) :
    Except Failure TensorDescriptor :=
  CalculateStrides (CalculateVectorLength
    { lens := plens, strides := [], packed := true, type := t, tensorLayout := dflt,
      vector_length := 1 })

/-- Source: `TensorDescriptor(miopenDataType_t t, miopenTensorLayout_t playout, plens)`, for
`plens` a `std::initializer_list<std::size_t>` or a `std::vector<std::size_t>`. -/
def ctor_layout_lens (t : miopenDataType_t) (playout : miopenTensorLayout_t)
    (plens : List Nat) : Except Failure TensorDescriptor :=
  CalculateStrides (CalculateVectorLength
    { lens := plens, strides := [], packed := true, type := t, tensorLayout := playout,
      vector_length := 1 })

/-- The body shared by the constructors that are given strides:
`packed = (this->GetElementSize() == this->GetElementSpace())`. -/
def setPacked (d : TensorDescriptor) : Except Failure TensorDescriptor := do
  let size ← GetElementSize d
  let space ← GetElementSpace d
  pure { d with packed := decide (size = space) }

/-- Source: `TensorDescriptor(miopenDataType_t t, plens, pstrides)`, for two
`std::initializer_list<std::size_t>` or two `std::vector<std::size_t>`. -/
def ctor_lens_strides (dflt : miopenTensorLayout_t) (t : miopenDataType_t)
    (plens pstrides : List Nat) : Except Failure TensorDescriptor :=
  setPacked (CalculateVectorLength
    { lens := plens, strides := pstrides, packed := true, type := t, tensorLayout := dflt,
      vector_length := 1 })

/-- Source: `TensorDescriptor(miopenDataType_t t, miopenTensorLayout_t layout_in, lens_in,
strides_in)`. -/
def ctor_layout_lens_strides (t : miopenDataType_t) (layout_in : miopenTensorLayout_t)
    (lens_in strides_in : List Nat) : Except Failure TensorDescriptor :=
  setPacked (CalculateVectorLength
    { lens := lens_in, strides := strides_in, packed := true, type := t,
      tensorLayout := layout_in, vector_length := 1 })

/-- The range `[p, p + size)` of an `int` array: reading more elements than the array
has is undefined. -/
def intRange (p : List Int) (size : Nat) : Except Failure (List Int) :=
  if size ≤ p.length then .ok (p.take size) else .error .undefined

/-- Source: `TensorDescriptor(miopenDataType_t t, const int* plens, int size)`. -/
def ctor_int (dflt : miopenTensorLayout_t) (t : miopenDataType_t) (plens : List Int)
    (size : Nat) : Except Failure TensorDescriptor := do
  let ls ← intRange plens size
  if ¬ ls.all (fun x => decide (x ≥ 0)) then
    .error (.exception "Invalid length. Length must be greater than 0.")
  else
    CalculateStrides (CalculateVectorLength
      { lens := ls.map toSz, strides := [], packed := true, type := t, tensorLayout := dflt,
        vector_length := 1 })

/-- Source: `TensorDescriptor(miopenDataType_t t, const int* plens, const int* pstrides,
int size)`. -/
def ctor_int_strides (dflt : miopenTensorLayout_t) (t : miopenDataType_t)
    (plens pstrides : List Int) (size : Nat) : Except Failure TensorDescriptor := do
  let ls ← intRange plens size
  let ss ← intRange pstrides size
  if ¬ ls.all (fun x => decide (x ≥ 0)) then
    .error (.exception "Invalid length. Length must be greater than 0.")
  else if ¬ ss.all (fun x => decide (x ≥ 0)) then
    .error (.exception "Invalid strides. Strides must be greater than 0.")
  else
    setPacked (CalculateVectorLength
      { lens := ls.map toSz, strides := ss.map toSz, packed := true, type := t,
        tensorLayout := dflt, vector_length := 1 })

/-- Source: `TensorDescriptor(miopenDataType_t t, miopenTensorLayout_t playout,
const int* plens, int size)`. -/
def ctor_layout_int (t : miopenDataType_t) (playout : miopenTensorLayout_t)
    (plens : List Int) (size : Nat) : Except Failure TensorDescriptor := do
  let ls ← intRange plens size
  if ¬ ls.all (fun x => decide (x ≥ 0)) then
    .error (.exception "Invalid length. Length must be greater than 0.")
  else
    CalculateStrides (CalculateVectorLength
      { lens := ls.map toSz, strides := [], packed := true, type := t,
        tensorLayout := playout, vector_length := 1 })

/-- A call of one of the constructors that take lengths, with its arguments. -/
inductive CtorCall where
  | lens (t : miopenDataType_t) (plens : List Nat)
  | layout_lens (t : miopenDataType_t) (playout : miopenTensorLayout_t) (plens : List Nat)
  | lens_strides (t : miopenDataType_t) (plens pstrides : List Nat)
  | layout_lens_strides (t : miopenDataType_t) (layout_in : miopenTensorLayout_t)
      (lens_in strides_in : List Nat)
  | int (t : miopenDataType_t) (plens : List Int) (size : Nat)
  | int_strides (t : miopenDataType_t) (plens pstrides : List Int) (size : Nat)
  | layout_int (t : miopenDataType_t) (playout : miopenTensorLayout_t) (plens : List Int)
      (size : Nat)
  deriving DecidableEq, Repr

/-- Overload resolution: the constructor a call runs. -/
def construct (dflt : miopenTensorLayout_t) : CtorCall → Except Failure TensorDescriptor
  | .lens t plens => ctor_lens dflt t plens
  | .layout_lens t playout plens => ctor_layout_lens t playout plens
  | .lens_strides t plens pstrides => ctor_lens_strides dflt t plens pstrides
  | .layout_lens_strides t layout_in lens_in strides_in =>
    ctor_layout_lens_strides t layout_in lens_in strides_in
  | .int t plens size => ctor_int dflt t plens size
  | .int_strides t plens pstrides size => ctor_int_strides dflt t plens pstrides size
  | .layout_int t playout plens size => ctor_layout_int t playout plens size

end TensorDescriptor

/-! ## `AnySolver` -/

namespace solver

/-- The types `any_solver.hpp` takes from other headers. -/
structure Sig where
  /-- Source: `ConvolutionContext`. -/
  Ctx : Type
  /-- The type of `ctx.problem`. -/
  Problem : Type
  /-- The `PerformanceConfig` of a Tunable solver. -/
  Config : Type
  /-- Source: `ConvSolution`. -/
  Solution : Type
  /-- Source: `DbRecord`. -/
  Record : Type
  /-- Source: `AnySolver::Db`. -/
  Db : Type
  /-- The result of `GetWti` (a `float`, kept abstract). -/
  Wti : Type
  /-- Source: `miopen::AnyInvokeParams`. -/
  Invoke : Type

/-- The calls a handle makes into its solver, the database and a database record. -/
inductive Event (S : Sig) where
  /-- Source: `db.Load(ctx.problem, id, config)`. -/
  | Load (id : String) : Event S
  /-- Source: `record.GetValues(id, config)`. -/
  | GetValues (id : String) : Event S
  /-- Source: `value.IsValidPerformanceConfig(ctx, config)`. -/
  | IsValidPerformanceConfig (config : S.Config) : Event S
  /-- Source: `value.GetSolution(ctx)`. -/
  | GetSolution : Event S
  /-- Source: `miopen::solver::GetAllSolutions(value, ctx)`. -/
  | GenericSearch : Event S
  /-- Source: `miopen::solver::FindSolution(value, ctx, db, invoke_ctx)`. -/
  | FindSolution : Event S
  /-- Any other member function of the solver, by name. -/
  | Member (name : String) : Event S

/-- The outcome of an operation of the handle: the calls it made, in order, and its
value or failure. -/
structure Run (S : Sig) (α : Type) where
  trace : List (Event S)
  result : Except Failure α

namespace Run

variable {S : Sig} {α β : Type}

/-- An operation that makes no call and returns `a`. -/
def ret (a : α) : Run S α := ⟨[], .ok a⟩

/-- An operation that fails before any call. -/
def fail (f : Failure) : Run S α := ⟨[], .error f⟩

/-- One call, recorded as `e`, that returns `a`. -/
def call (e : Event S) (a : α) : Run S α := ⟨[e], .ok a⟩

/-- Sequencing: the second part runs only when the first returned. -/
def andThen (r : Run S α) (f : α → Run S β) : Run S β :=
  match r.result with
  | .ok a => ⟨r.trace ++ (f a).trace, (f a).result⟩
  | .error e => ⟨r.trace, .error e⟩

instance : Monad (Run S) where
  pure := ret
  bind := andThen

end Run

/-- What is used of the outside world: the database, database records and the
context type. -/
structure Env (S : Sig) where
  /-- The member `ctx.problem`. -/
  problem : S.Ctx → S.Problem
  /-- The conversion by which `ctx.problem` is passed where a
  `const ConvolutionContext&` is expected. -/
  toCtx : S.Problem → S.Ctx
  /-- Source: `db.Load(problem, id, config)`: found or not, and `config` afterwards. -/
  Load : S.Db → S.Problem → String → S.Config → Bool × S.Config
  /-- Source: `record.GetValues(id, config)`: success or not, and `config` afterwards. -/
  GetValues : S.Record → String → S.Config → Bool × S.Config

/-- What a Tunable solver type `T` has beyond a plain one (`TunableSolver::Is`). -/
structure Tunable (S : Sig) where
  /-- The value-initialised `PerformanceConfig config{}`. -/
  init : S.Config
  IsValidPerformanceConfig : S.Ctx → S.Config → Bool
  /-- The member `config.ToString()`. -/
  ToString : S.Config → String
  /-- The free function `miopen::solver::GetAllSolutions(value, ctx)` of
  `generic_search.hpp` at this solver. -/
  GenericSearch : S.Ctx → List S.Solution

/-- The solver value `T value` held by `AnySolver_tmpl<T>`, with the two traits of
its type: `tunable` is present exactly when `TunableSolver::Is`, `legacy` is
`LegacySolver::Is`. -/
structure AnySolver_tmpl (S : Sig) where
  tunable : Option (Tunable S)
  legacy : Bool
  SolverDbId : String
  AltSolverDbId : String
  IsApplicable : S.Ctx → Bool
  GetSolution : S.Ctx → S.Solution
  IsDynamic : Bool
  GetWti : S.Ctx → S.Wti
  GetWorkspaceSize : S.Ctx → Nat
  MayNeedWorkspace : Bool
  /-- The result of `typeid(T)`, as a name. -/
  typeid : String
  /-- The free function `miopen::solver::FindSolution(value, ctx, db, invoke_ctx)` of
  `find_solution.hpp` at this solver. -/
  FindSolution : S.Ctx → S.Db → S.Invoke → S.Solution

namespace AnySolver_tmpl

variable {S : Sig}

/-- Source: `AnySolver_tmpl::IsTunable`. -/
def IsTunable (v : AnySolver_tmpl S) : Bool := v.tunable.isSome

/-- Source: `AnySolver_tmpl::TestSysDbRecord(ctx, record, std::true_type)`. -/
def TestSysDbRecord_true (E : Env S) (v : AnySolver_tmpl S) (tn : Tunable S) (ctx : S.Ctx)
    (record : S.Record) : Run S Bool := do
  let config := tn.init
  let (success, config) ←
    Run.call (.GetValues v.SolverDbId) (E.GetValues record v.SolverDbId config)
  if success then
    Run.call (.IsValidPerformanceConfig config) (tn.IsValidPerformanceConfig ctx config)
  else
    pure success

/-- Source: `AnySolver_tmpl::TestSysDbRecord(ctx, record, std::false_type)`. -/
def TestSysDbRecord_false (_ctx : S.Ctx) (_record : S.Record) : Run S Bool :=
  pure false

/-- Source: `AnySolver_tmpl::TestSysDbRecord(ctx, record)`. -/
def TestSysDbRecord (E : Env S) (v : AnySolver_tmpl S) (ctx : S.Ctx) (record : S.Record) :
    Run S Bool :=
  match v.tunable with
  | some tn => TestSysDbRecord_true E v tn ctx record
  | none => TestSysDbRecord_false ctx record

/-- Source: `AnySolver_tmpl::GetAllSolutions(ctx)`, with its four overloads on
`(TunableSolver::Is, LegacySolver::Is)`. -/
def GetAllSolutions (v : AnySolver_tmpl S) (ctx : S.Ctx) : Run S (List S.Solution) :=
  match v.tunable, v.legacy with
  | some _, true => Run.fail (.exception "No solutions returned for Legacy Solvers.")
  | some tn, false => Run.call .GenericSearch (tn.GenericSearch ctx)
  | none, true => do
    let solutions : List S.Solution := []
    let s ← Run.call .GetSolution (v.GetSolution ctx)
    pure (solutions ++ [s])
  | none, false => do
    let solutions : List S.Solution := []
    let s ← Run.call .GetSolution (v.GetSolution ctx)
    pure (solutions ++ [s])

/-- Source: `AnySolver_tmpl::GetPerfCfgParams(ctx, db, std::true_type)`. -/
def GetPerfCfgParams_true (E : Env S) (v : AnySolver_tmpl S) (tn : Tunable S) (ctx : S.Ctx)
    (db : S.Db) : Run S String := do
  let config := tn.init
  let (found, config) ←
    Run.call (.Load v.SolverDbId) (E.Load db (E.problem ctx) v.SolverDbId config)
  if found then
    let valid ←
      Run.call (.IsValidPerformanceConfig config) (tn.IsValidPerformanceConfig ctx config)
    if valid then pure (tn.ToString config) else pure ""
  else if v.AltSolverDbId.isEmpty then pure ""
  else
    let (found, config) ←
      Run.call (.Load v.AltSolverDbId) (E.Load db (E.problem ctx) v.AltSolverDbId config)
    if found then
      let valid ←
        Run.call (.IsValidPerformanceConfig config) (tn.IsValidPerformanceConfig ctx config)
      if valid then pure (tn.ToString config) else pure ""
    else pure ""

/-- Source: `AnySolver_tmpl::GetPerfCfgParams(ctx, db, std::false_type)`. -/
def GetPerfCfgParams_false (_ctx : S.Ctx) (_db : S.Db) : Run S String :=
  pure ""

/-- Source: `AnySolver_tmpl::GetPerfCfgParams(ctx, db)`: the argument handed on is
`ctx.problem`. -/
def GetPerfCfgParams (E : Env S) (v : AnySolver_tmpl S) (ctx : S.Ctx) (db : S.Db) :
    Run S String :=
  match v.tunable with
  | some tn => GetPerfCfgParams_true E v tn (E.toCtx (E.problem ctx)) db
  | none => GetPerfCfgParams_false (E.toCtx (E.problem ctx)) db

end AnySolver_tmpl

/-- Source: `AnySolver`: `ptr_value` is null or points to an `AnySolver_tmpl<T>`. -/
structure AnySolver (S : Sig) where
  ptr_value : Option (AnySolver_tmpl S)

namespace AnySolver

variable {S : Sig}

/-- The default constructor `AnySolver()`. -/
def empty : AnySolver S := ⟨none⟩

/-- The constructor `AnySolver(U src)`. -/
def ofSolver (src : AnySolver_tmpl S) : AnySolver S := ⟨some src⟩

/-- Source: `AnySolver::IsEmpty`. -/
def IsEmpty (a : AnySolver S) : Bool := a.ptr_value.isNone

/-- The head of every other member: `assert(ptr_value != nullptr)`, then the call
through `ptr_value`. -/
def deref {α : Type} (a : AnySolver S) (f : AnySolver_tmpl S → Run S α) : Run S α :=
  match a.ptr_value with
  | none => Run.fail .assertion
  | some v => f v

/-- Source: `AnySolver::IsApplicable`. -/
def IsApplicable (a : AnySolver S) (ctx : S.Ctx) : Run S Bool :=
  a.deref fun v => Run.call (.Member "IsApplicable") (v.IsApplicable ctx)

/-- Source: `AnySolver::IsTunable`. -/
def IsTunable (a : AnySolver S) : Run S Bool :=
  a.deref fun v => pure v.IsTunable

/-- Source: `AnySolver::TestSysDbRecord`. -/
def TestSysDbRecord (E : Env S) (a : AnySolver S) (ctx : S.Ctx) (record : S.Record) :
    Run S Bool :=
  a.deref fun v => v.TestSysDbRecord E ctx record

/-- Source: `AnySolver::GetAllSolutions`. -/
def GetAllSolutions (a : AnySolver S) (ctx : S.Ctx) : Run S (List S.Solution) :=
  a.deref fun v => v.GetAllSolutions ctx

/-- Source: `AnySolver::IsDynamic`. -/
def IsDynamic (a : AnySolver S) : Run S Bool :=
  a.deref fun v => Run.call (.Member "IsDynamic") v.IsDynamic

/-- Source: `AnySolver::GetWti`. -/
def GetWti (a : AnySolver S) (ctx : S.Ctx) : Run S S.Wti :=
  a.deref fun v => Run.call (.Member "GetWti") (v.GetWti ctx)

/-- Source: `AnySolver::Type`. -/
def typeid (a : AnySolver S) : Run S String :=
  a.deref fun v => pure v.typeid

/-- Source: `AnySolver::FindSolution`. -/
def FindSolution (a : AnySolver S) (ctx : S.Ctx) (db : S.Db) (invoke_ctx : S.Invoke) :
    Run S S.Solution :=
  a.deref fun v => Run.call .FindSolution (v.FindSolution ctx db invoke_ctx)

/-- Source: `AnySolver::GetPerfCfgParams`. -/
def GetPerfCfgParams (E : Env S) (a : AnySolver S) (ctx : S.Ctx) (db : S.Db) : Run S String :=
  a.deref fun v => v.GetPerfCfgParams E ctx db

/-- Source: `AnySolver::GetSolverDbId`. -/
def GetSolverDbId (a : AnySolver S) : Run S String :=
  a.deref fun v => Run.call (.Member "SolverDbId") v.SolverDbId

/-- Source: `AnySolver::GetWorkspaceSize`. -/
def GetWorkspaceSize (a : AnySolver S) (ctx : S.Ctx) : Run S Nat :=
  a.deref fun v => Run.call (.Member "GetWorkspaceSize") (v.GetWorkspaceSize ctx)

/-- Source: `AnySolver::MayNeedWorkspace`. -/
def MayNeedWorkspace (a : AnySolver S) : Run S Bool :=
  a.deref fun v => Run.call (.Member "MayNeedWorkspace") v.MayNeedWorkspace

end AnySolver

end solver

end miopen

namespace miopen
namespace TensorDescriptor
open miopenTensorLayout_t

/-- The strides that `CalculateStrides` derives, in closed form: the innermost stride
is `v`, every other one is the product of the lengths to its right times `v`. -/
def derivedStrides (v : Nat) : List Nat → List Nat
  | [] => []
  | [_] => [v]
  | _ :: y :: ys => ((y :: ys).prod * v) % size_t_mod :: derivedStrides v (y :: ys)

/-- A layout outside the four vectorized ones. -/
def NonVectorized (layout : miopenTensorLayout_t) : Prop :=
  layout ≠ miopenTensorNCHWc4 ∧ layout ≠ miopenTensorNCHWc8 ∧
  layout ≠ miopenTensorCHWNc4 ∧ layout ≠ miopenTensorCHWNc8

instance (layout : miopenTensorLayout_t) : Decidable (NonVectorized layout) := by
  unfold NonVectorized; infer_instance

/-- The constructor call `r` yields a descriptor with lengths `lens` and one stride per
length, the innermost stride being `v` and every other stride `v` times the product
of the lengths to its right, in `std::size_t` arithmetic. -/
def YieldsDerived (r : Except Failure TensorDescriptor) (v : Nat) (lens : List Nat) : Prop :=
  ∃ d, r = .ok d ∧ d.lens = lens ∧ d.strides.length = lens.length ∧
    d.strides.getLast? = some v ∧
    ∀ i, i + 1 < lens.length → d.strides[i]? = some (v * (lens.drop (i + 1)).prod % size_t_mod)

end TensorDescriptor
end miopen

namespace miopen
namespace TensorDescriptor

/-- The element count as a formula: vector length times the product of the lengths,
modulo `2 ^ 64`. -/
def elementCount (d : TensorDescriptor) : Nat :=
  d.vector_length * d.lens.prod % size_t_mod

/-- The element space as a formula: the sum of `(lens[i] - 1) * strides[i]` plus the
vector length, modulo `2 ^ 64` (`lens[i] - 1` wraps around for a length `0`). -/
def elementSpace (d : TensorDescriptor) : Nat :=
  ((List.zipWith (fun l s => subSz l 1 * s) d.lens d.strides).sum + d.vector_length)
    % size_t_mod

/-- Whether a constructor call derives the strides (calls `CalculateStrides`) instead
of taking them as an argument. -/
def CtorCall.derivesStrides : CtorCall → Bool
  | .lens .. => true
  | .layout_lens .. => true
  | .lens_strides .. => false
  | .layout_lens_strides .. => false
  | .int .. => true
  | .int_strides .. => false
  | .layout_int .. => true

end TensorDescriptor
end miopen

namespace miopen
namespace solver

/-! ### A concrete solver, database and record

Contexts, problems and solutions are numbers, a performance config is a string, a
database and a database record are association lists from identifiers to configs. -/

/-- The types of the concrete instance. -/
abbrev fixtureSig : Sig :=
  { Ctx := Nat, Problem := Nat, Config := String, Solution := Nat,
    Record := List (String × String), Db := List (String × String), Wti := Nat,
    Invoke := Unit }

/-- Looking up an identifier: found with the stored config, or not found with the
config left as it was. -/
def fixtureLookup (table : List (String × String)) (id : String) (config : String) :
    Bool × String :=
  match table.lookup id with
  | some c => (true, c)
  | none => (false, config)

/-- The environment of the concrete instance. -/
def fixtureEnv : Env fixtureSig :=
  { problem := fun ctx => ctx
    toCtx := fun problem => problem
    Load := fun db _ id config => fixtureLookup db id config
    GetValues := fun record id config => fixtureLookup record id config }

/-- A Tunable solver with primary identifier `"New"` and alternate identifier `"Old"`
that accepts every config but `"bad"`; `legacy` is left to the caller. -/
def fixtureTunable (legacy : Bool) : AnySolver_tmpl fixtureSig :=
  { tunable := some
      { init := ""
        IsValidPerformanceConfig := fun _ config => config != "bad"
        ToString := fun config => config
        GenericSearch := fun ctx => [ctx, ctx + 1] }
    legacy := legacy
    SolverDbId := "New"
    AltSolverDbId := "Old"
    IsApplicable := fun _ => true
    GetSolution := fun ctx => ctx
    IsDynamic := false
    GetWti := fun _ => 1
    GetWorkspaceSize := fun _ => 0
    MayNeedWorkspace := false
    typeid := "FixtureTunable"
    FindSolution := fun ctx _ _ => ctx }

/-- A solver that is not Tunable. -/
def fixturePlain (legacy : Bool) : AnySolver_tmpl fixtureSig :=
  { fixtureTunable legacy with tunable := none, typeid := "FixturePlain" }

end solver
end miopen

namespace miopen

/-! ## Comparison operators of `TensorDescriptor` -/

/-- Source: `operator<` of `std::vector<std::size_t>`, that is
`std::lexicographical_compare`: the first position where the two differ decides, and
a proper prefix is smaller. -/
def vector_lt : List Nat → List Nat → Bool
  | [], [] => false
  | [], _ :: _ => true
  | _ :: _, [] => false
  | a :: as, b :: bs => if a < b then true else if b < a then false else vector_lt as bs

/-- Source: `operator<` of the pairs built by `std::tie`: the first components decide
unless neither is smaller than the other, then the second components decide. -/
def tie_lt (a1 a2 b1 b2 : List Nat) : Bool :=
  vector_lt a1 b1 || (!vector_lt b1 a1 && vector_lt a2 b2)

namespace TensorDescriptor

/-- Source: `TensorDescriptor::operator==`. -/
def operator_eq (a rhs : TensorDescriptor) : Except Failure Bool :=
  if a.lens.length = rhs.strides.length then
    .ok (decide (a.type = rhs.type) && decide (a.lens = rhs.lens) &&
      decide (a.strides = rhs.strides))
  else .error .assertion

/-- Source: `TensorDescriptor::operator!=`. -/
def operator_ne (a rhs : TensorDescriptor) : Except Failure Bool :=
  (operator_eq a rhs).map fun b => !b

/-- Source: `TensorDescriptor::operator<`. -/
def operator_lt (a rhs : TensorDescriptor) : Bool :=
  tie_lt a.lens a.strides rhs.lens rhs.strides

/-- Source: `TensorDescriptor::operator>`; `operator>` of the pairs is `operator<` with
the sides exchanged. -/
def operator_gt (a rhs : TensorDescriptor) : Bool :=
  tie_lt rhs.lens rhs.strides a.lens a.strides

end TensorDescriptor
end miopen

namespace miopen

/-! ## Serialization -/

/-- The values of `nlohmann::json` that `to_json` and `from_json` of `tensor.cpp` build
and read (floating-point numbers and binary values are left out). An unsigned number
holds the `std::size_t` it was built from. -/
inductive Json where
  | null : Json
  | boolean (b : Bool) : Json
  | number_integer (i : Int) : Json
  | number_unsigned (n : Nat) : Json
  | string (s : String) : Json
  | array (elements : List Json) : Json
  | object (members : List (String × Json)) : Json

/-- The conversion between `miopenDataType_t` and its underlying integer, by which
`nlohmann::json` writes and reads an enumeration. The enumerator values are those of
`miopen.h`; a conversion to the integer and back gives the enumerator again. -/
structure EnumValues where
  toInt : miopenDataType_t → Int
  ofInt : Int → miopenDataType_t
  ofInt_toInt : ∀ t, ofInt (toInt t) = t

namespace Json

/-- Source: `j.at(key)`: the member of an object, an exception for a missing key or a
value that is not an object. -/
def «at» (j : Json) (key : String) : Except Failure Json :=
  match j with
  | object members =>
    match members.lookup key with
    | some v => .ok v
    | none => .error (.exception "out_of_range")
  | _ => .error (.exception "type_error")

/-- Reading a number as `std::size_t`: an unsigned number as it is, a signed one and a
boolean by conversion. -/
def get_size_t : Json → Except Failure Nat
  | number_unsigned n => .ok n
  | number_integer i => .ok (toSz i)
  | boolean b => .ok (if b then 1 else 0)
  | _ => .error (.exception "type_error")

/-- Source: `get_to` into a `std::vector<std::size_t>`. -/
def get_to_vector : Json → Except Failure (List Nat)
  | array elements => elements.mapM get_size_t
  | _ => .error (.exception "type_error")

/-- Source: `get_to` into a `bool`. -/
def get_to_bool : Json → Except Failure Bool
  | boolean b => .ok b
  | _ => .error (.exception "type_error")

/-- Source: `get_to` into a `miopenDataType_t`: the number read, converted to the
enumeration. -/
def get_to_enum (V : EnumValues) : Json → Except Failure miopenDataType_t
  | number_integer i => .ok (V.ofInt i)
  | number_unsigned n => .ok (V.ofInt n)
  | boolean b => .ok (V.ofInt (if b then 1 else 0))
  | _ => .error (.exception "type_error")

end Json

/-- Source: `to_json(nlohmann::json& j, const TensorDescriptor& descriptor)`. -/
def to_json (V : EnumValues) (descriptor : TensorDescriptor) : Json :=
  .object
    [("lengths", .array (descriptor.lens.map .number_unsigned)),
     ("strides", .array (descriptor.strides.map .number_unsigned)),
     ("packed", .boolean descriptor.packed),
     ("type", .number_integer (V.toInt descriptor.type))]

/-- Source: `from_json(const nlohmann::json& j, TensorDescriptor& descriptor)`: the
value is the descriptor after the four assignments; an exception ends the function
at the first member that is missing or has the wrong type. -/
def from_json (V : EnumValues) (j : Json) (descriptor : TensorDescriptor) :
    Except Failure TensorDescriptor := do
  let lens ← (← j.at "lengths").get_to_vector
  let descriptor := { descriptor with lens := lens }
  let strides ← (← j.at "strides").get_to_vector
  let descriptor := { descriptor with strides := strides }
  let packed ← (← j.at "packed").get_to_bool
  let descriptor := { descriptor with packed := packed }
  let type ← (← j.at "type").get_to_enum V
  pure { descriptor with type := type }

/-- One assignment of enumerator values: `0` to `6` in the order of declaration, and
`7 + tag` for `other tag`. -/
def fixtureEnumValues : EnumValues where
  toInt
    | .miopenHalf => 0
    | .miopenFloat => 1
    | .miopenInt32 => 2
    | .miopenInt8 => 3
    | .miopenInt8x4 => 4
    | .miopenBFloat16 => 5
    | .miopenDouble => 6
    | .other tag => 7 + tag
  ofInt i :=
    if i = 0 then .miopenHalf
    else if i = 1 then .miopenFloat
    else if i = 2 then .miopenInt32
    else if i = 3 then .miopenInt8
    else if i = 4 then .miopenInt8x4
    else if i = 5 then .miopenBFloat16
    else if i = 6 then .miopenDouble
    else .other (i - 7).toNat
  ofInt_toInt t := by
    cases t with
    | other tag =>
      have h : ∀ k : Int, k < 7 → ¬ ((7 : Int) + (tag : Int) = k) := by
        intro k hk; omega
      simp only [h 0 (by norm_num), h 1 (by norm_num), h 2 (by norm_num), h 3 (by norm_num),
        h 4 (by norm_num), h 5 (by norm_num), h 6 (by norm_num), if_false]
      congr 1
      omega
    | _ => rfl

end miopen

namespace miopen
namespace TensorDescriptor

/-- Source: `TensorDescriptor::GetNumBytes`: `typesize` stays `0` for an element type
that the `switch` does not name. -/
def GetNumBytes (d : TensorDescriptor) : Except Failure Nat := do
  let typesize : Nat :=
    match d.type with
    | .miopenInt8x4 => 1
    | .miopenInt8 => 1
    | .miopenBFloat16 => 2
    | .miopenHalf => 2
    | .miopenInt32 => 4
    | .miopenFloat => 4
    | .miopenDouble => 8
    | .other _ => 0
  let space ← GetElementSpace d
  pure (mulSz typesize space)

end TensorDescriptor
end miopen

namespace miopen
namespace solver

variable {S : Sig}

/-- The outcome of the load under the primary identifier in `GetPerfCfgParams`: found
or not, and the config afterwards. The context is the one handed on by
`AnySolver_tmpl::GetPerfCfgParams(ctx, db)`. -/
def primaryLoad (E : Env S) (v : AnySolver_tmpl S) (tn : Tunable S) (ctx : S.Ctx) (db : S.Db) :
    Bool × S.Config :=
  E.Load db (E.problem (E.toCtx (E.problem ctx))) v.SolverDbId tn.init

/-- The outcome of the load under the alternate identifier, into the config that the
load under the primary identifier left. -/
def alternateLoad (E : Env S) (v : AnySolver_tmpl S) (tn : Tunable S) (ctx : S.Ctx) (db : S.Db) :
    Bool × S.Config :=
  E.Load db (E.problem (E.toCtx (E.problem ctx))) v.AltSolverDbId (primaryLoad E v tn ctx db).2

/-- The validator as `GetPerfCfgParams` calls it. -/
def validFor (E : Env S) (tn : Tunable S) (ctx : S.Ctx) (config : S.Config) : Bool :=
  tn.IsValidPerformanceConfig (E.toCtx (E.problem ctx)) config

/-- A call of a public member function of `AnySolver`, with its arguments. -/
inductive Op (S : Sig) where
  | IsApplicable (ctx : S.Ctx) : Op S
  | IsTunable : Op S
  | TestSysDbRecord (ctx : S.Ctx) (record : S.Record) : Op S
  | GetAllSolutions (ctx : S.Ctx) : Op S
  | IsDynamic : Op S
  | GetWti (ctx : S.Ctx) : Op S
  | typeid : Op S
  | IsEmpty : Op S
  | FindSolution (ctx : S.Ctx) (db : S.Db) (invoke_ctx : S.Invoke) : Op S
  | GetPerfCfgParams (ctx : S.Ctx) (db : S.Db) : Op S
  | GetSolverDbId : Op S
  | GetWorkspaceSize (ctx : S.Ctx) : Op S
  | MayNeedWorkspace : Op S

/-- Whether an operation ended in a failure, and in which; the value is dropped. -/
def Run.outcome {α : Type} (r : Run S α) : Except Failure Unit :=
  r.result.map fun _ => ()

/-- Running one member function on a handle: the handle afterwards and the outcome.
Every member function is `const`, so the handle afterwards is the handle before. -/
def AnySolver.exec (E : Env S) (a : AnySolver S) : Op S → AnySolver S × Except Failure Unit
  | .IsApplicable ctx => (a, (a.IsApplicable ctx).outcome)
  | .IsTunable => (a, a.IsTunable.outcome)
  | .TestSysDbRecord ctx record => (a, (a.TestSysDbRecord E ctx record).outcome)
  | .GetAllSolutions ctx => (a, (a.GetAllSolutions ctx).outcome)
  | .IsDynamic => (a, a.IsDynamic.outcome)
  | .GetWti ctx => (a, (a.GetWti ctx).outcome)
  | .typeid => (a, a.typeid.outcome)
  | .IsEmpty => (a, .ok ())
  | .FindSolution ctx db invoke_ctx => (a, (a.FindSolution ctx db invoke_ctx).outcome)
  | .GetPerfCfgParams ctx db => (a, (a.GetPerfCfgParams E ctx db).outcome)
  | .GetSolverDbId => (a, a.GetSolverDbId.outcome)
  | .GetWorkspaceSize ctx => (a, (a.GetWorkspaceSize ctx).outcome)
  | .MayNeedWorkspace => (a, a.MayNeedWorkspace.outcome)

end solver
end miopen

namespace miopen

/-- Modelled from the spec: `tensor_layout_to_strides` of `tensor_layout.hpp`, which is
not under `src/`. The lengths are bound to the axis labels in order; every label gets
the stride that the ordering `layout` implies for it, the product of the lengths of
the axes that come after it in `layout` (in `std::size_t` arithmetic). A label that
`layout` does not have is an exception. -/
def tensor_layout_to_strides (lens : List Nat) (labels layout : String) :
    Except Failure (List Nat) :=
  let dim_to_len := labels.toList.zip lens
  labels.toList.mapM fun label =>
    if label ∈ layout.toList then
      .ok ((layout.toList.drop (layout.toList.indexOf label + 1)).foldl
        (fun acc l => mulSz acc ((dim_to_len.lookup l).getD 0)) 1)
    else .error (.exception "mismatched layout string")

namespace TensorDescriptor

/-- Source: `TensorDescriptor::IsPossibleLayout`. The function `tensor_layout_to_strides`
that it calls is the parameter `derive`: from the lengths, the labels and the layout it
gives the vector `derived_strides`, or throws. -/
def IsPossibleLayout (derive : List Nat → String → String → Except Failure (List Nat))
    (d : TensorDescriptor) (labels layout : String) : Except Failure Bool := do
  let derived_strides ← derive d.lens labels layout
  pure (decide (derived_strides = d.strides))

/-- The call of `IsPossibleLayout` with the descriptor afterwards: the member function
is `const`, so the descriptor after the call is the descriptor before. -/
def IsPossibleLayout_call (derive : List Nat → String → String → Except Failure (List Nat))
    (d : TensorDescriptor) (labels layout : String) : TensorDescriptor × Except Failure Bool :=
  (d, IsPossibleLayout derive d labels layout)

end TensorDescriptor
end miopen

namespace miopen
namespace TensorDescriptor

/-- A coordinate tuple with one coordinate per length, every coordinate a value of `int`
and in bounds: `0 <= c_i < lens[i]`. -/
def InBounds (lens : List Nat) (c : List Int) : Prop :=
  List.Forall₂ (fun (ci : Int) (li : Nat) => IsInt ci ∧ 0 ≤ ci ∧ ci < (li : Int)) c lens

/-- A coordinate tuple of full arity for `d` that is in bounds. For a non-vectorized
descriptor it has one coordinate per length. For a vectorized descriptor it starts with
the sub-index `v`, `0 <= v < vector_length`. For a layout of the CHWNc family it is
`(v, n, c, h, w)`, which `GetIndex` reorders to `(v, c, h, w, n)` before it meets the
strides: each of `c, h, w, n` is bounded by the length at the position of the stride it
is multiplied with. -/
def FullTuple (d : TensorDescriptor) (l : List Int) : Prop :=
  if GetLayout_str d = "CHWNc" then
    ∃ v n c h w, l = [v, n, c, h, w] ∧ IsInt v ∧ 0 ≤ v ∧ v < (d.vector_length : Int) ∧
      InBounds d.lens [c, h, w, n]
  else if IsVectorized d = true then
    ∃ v c, l = v :: c ∧ IsInt v ∧ 0 ≤ v ∧ v < (d.vector_length : Int) ∧ InBounds d.lens c
  else InBounds d.lens l

/-- The in-bounds tuples of natural numbers for the lengths `lens`, as a finite set. -/
def tuples : List Nat → Finset (List Nat)
  | [] => {[]}
  | l :: ls => (Finset.range l ×ˢ tuples ls).image fun p => p.1 :: p.2

/-- The inner product of two sequences of natural numbers, without reduction. -/
def dot (c s : List Nat) : Nat := (List.zipWith (fun a b => a * b) c s).sum

end TensorDescriptor
end miopen

namespace miopen
open TensorDescriptor

theorem mulSz_lt (a b : Nat) : mulSz a b < size_t_mod := Nat.mod_lt _ (by norm_num)
theorem addSz_lt (a b : Nat) : addSz a b < size_t_mod := Nat.mod_lt _ (by norm_num)
theorem subSz_lt (a b : Nat) : subSz a b < size_t_mod := Nat.mod_lt _ (by norm_num)

theorem cast_mulSz (a b : Nat) : ((mulSz a b : Nat) : ZMod size_t_mod) = a * b := by
  simp [mulSz]

theorem cast_addSz (a b : Nat) : ((addSz a b : Nat) : ZMod size_t_mod) = a + b := by
  simp [addSz]

theorem cast_subSz (a b : Nat) : ((subSz a b : Nat) : ZMod size_t_mod) = a - b := by
  have h : b % size_t_mod ≤ size_t_mod := (Nat.mod_lt _ (by norm_num)).le
  rw [subSz, ZMod.natCast_mod, Nat.cast_add, Nat.cast_sub h, ZMod.natCast_self,
    ZMod.natCast_mod]
  ring

theorem eq_of_cast_eq {x y : Nat} (hx : x < size_t_mod) (hy : y < size_t_mod)
    (h : (x : ZMod size_t_mod) = y) : x = y := by
  have := (ZMod.natCast_eq_natCast_iff' x y size_t_mod).1 h
  rwa [Nat.mod_eq_of_lt hx, Nat.mod_eq_of_lt hy] at this



open TensorDescriptor

theorem scanl_snoc (f : Nat → Nat → Nat) (xs : List Nat) (a y : Nat) :
    List.scanl f a (xs ++ [y]) = List.scanl f a xs ++ [f (List.foldl f a xs) y] := by
  induction xs generalizing a with
  | nil => simp [List.scanl]
  | cons x xs ih => simp [List.scanl, ih]

theorem cast_foldl_mulSz (xs : List Nat) (a : Nat) :
    ((List.foldl mulSz a xs : Nat) : ZMod size_t_mod) = (a : ZMod size_t_mod) * (xs.prod : Nat) := by
  induction xs generalizing a with
  | nil => simp
  | cons x xs ih =>
    rw [List.foldl_cons, ih, cast_mulSz, List.prod_cons, Nat.cast_mul]
    ring

theorem length_partial_sum (op : Nat → Nat → Nat) (xs : List Nat) :
    (partial_sum op xs).length = xs.length := by
  cases xs <;> simp [partial_sum, List.length_scanl]

theorem set_last_replicate (m v : Nat) :
    (List.replicate (m + 1) 0).set m v = List.replicate m 0 ++ [v] := by
  induction m with
  | zero => rfl
  | succ m ih =>
    show (0 :: List.replicate (m + 1) 0).set (m + 1) v = 0 :: List.replicate m 0 ++ [v]
    rw [List.set_cons_succ, ih]
    rfl

theorem writeAt_one (v : Nat) (zs out : List Nat) (h : out.length = zs.length) :
    writeAt (v :: zs) 1 out = v :: out := by
  have h1 : zs.length + 1 ≤ 1 + zs.length := by omega
  simp [writeAt, h, h1]

theorem scaleFirst_append (v : Nat) (xs ys : List Nat) :
    scaleFirst v xs.length (xs ++ ys) = xs.map (fun x => mulSz x v) ++ ys := by
  induction xs with
  | nil => simp [scaleFirst]
  | cons x xs ih => simp [scaleFirst, ih]

/-- The scaled reversed running products over the tail of the lengths. -/
theorem scaled_partial_sum (v : Nat) (x : Nat) (t : List Nat) :
    (partial_sum mulSz t.reverse).reverse.map (fun s => mulSz s v) ++ [v]
      = derivedStrides v (x :: t) := by
  induction t generalizing x with
  | nil => simp [partial_sum, derivedStrides]
  | cons y ys ih =>
    have hps : partial_sum mulSz (ys.reverse ++ [y])
        = partial_sum mulSz ys.reverse ++
          [match ys.reverse with | [] => y | a :: as => mulSz (List.foldl mulSz a as) y] := by
      cases h : ys.reverse with
      | nil => simp [partial_sum]
      | cons a as => simp [partial_sum, scanl_snoc]
    rw [List.reverse_cons, hps, List.reverse_append, List.reverse_singleton, List.singleton_append,
      List.map_cons, List.cons_append, ih y, derivedStrides]
    congr 1
    apply eq_of_cast_eq (mulSz_lt _ _) (Nat.mod_lt _ (by norm_num))
    rw [cast_mulSz, ZMod.natCast_mod, Nat.cast_mul, List.prod_cons, ← List.prod_reverse ys]
    cases h : ys.reverse with
    | nil => simp
    | cons a as =>
      simp only [cast_mulSz, cast_foldl_mulSz, List.prod_cons, Nat.cast_mul]
      ring




open TensorDescriptor miopenTensorLayout_t

theorem strides_pipeline (v x : Nat) (t : List Nat) :
    scaleFirst v
      ((writeAt ((List.replicate (x :: t).length 0).set ((List.replicate (x :: t).length 0).length - 1)
          v).reverse 1 (partial_sum mulSz ((x :: t).reverse.take ((x :: t).length - 1)))).reverse.length
        - 1)
      (writeAt ((List.replicate (x :: t).length 0).set ((List.replicate (x :: t).length 0).length - 1)
          v).reverse 1 (partial_sum mulSz ((x :: t).reverse.take ((x :: t).length - 1)))).reverse
      = derivedStrides v (x :: t) := by
  have h1 : (List.replicate (x :: t).length 0).set ((List.replicate (x :: t).length 0).length - 1) v
      = List.replicate t.length 0 ++ [v] := by
    simpa using set_last_replicate t.length v
  have h2 : (x :: t).reverse.take ((x :: t).length - 1) = t.reverse := by
    simp [List.take_append_of_le_length]
  rw [h1, h2, List.reverse_append, List.reverse_singleton, List.singleton_append,
    List.reverse_replicate,
    writeAt_one v _ _ (by simp [length_partial_sum]), List.reverse_cons]
  have h3 : ((partial_sum mulSz t.reverse).reverse ++ [v]).length - 1
      = (partial_sum mulSz t.reverse).reverse.length := by simp
  rw [h3, scaleFirst_append, scaled_partial_sum]

theorem divAt_length {lens l : List Nat} {i v : Nat} (h : divAt lens i v = .ok l) :
    l.length = lens.length := by
  unfold divAt at h
  split at h
  · cases h; simp
  · cases h

theorem divideChannel_length {d : TensorDescriptor} {l : List Nat}
    (h : divideChannel d = .ok l) : l.length = d.lens.length := by
  unfold divideChannel at h
  split at h
  · exact divAt_length h
  · split at h
    · exact divAt_length h
    · cases h; rfl

theorem CalculateStrides_eq (d : TensorDescriptor) (lens1 : List Nat) (hne : d.lens ≠ [])
    (hdiv : divideChannel d = .ok lens1) :
    CalculateStrides d
      = .ok { d with lens := lens1, strides := derivedStrides d.vector_length lens1 } := by
  have hlen := divideChannel_length hdiv
  have hne1 : lens1 ≠ [] := by
    intro h; rw [h] at hlen; exact hne (List.length_eq_zero.1 hlen.symm)
  obtain ⟨x, t, rfl⟩ := List.exists_cons_of_ne_nil hne1
  have hemp : (List.replicate d.lens.length 0).isEmpty = false := by
    cases hl : d.lens with
    | nil => exact absurd hl hne
    | cons a b => rfl
  unfold CalculateStrides
  simp only [hemp, hdiv, ← hlen]
  have := strides_pipeline d.vector_length x t
  simp only [Bool.false_eq_true, ↓reduceIte, bind, Except.bind, pure, Except.pure]
  rw [this]
  simp

theorem CalculateStrides_nil (d : TensorDescriptor) (h : d.lens = []) :
    CalculateStrides d = .ok { d with strides := [] } := by
  unfold CalculateStrides
  simp [h]




open TensorDescriptor miopenTensorLayout_t

theorem length_derivedStrides (v : Nat) (l : List Nat) :
    (derivedStrides v l).length = l.length := by
  induction l with
  | nil => rfl
  | cons x t ih =>
    cases t with
    | nil => rfl
    | cons y ys => simpa [derivedStrides] using ih

theorem getLast?_derivedStrides (v : Nat) (l : List Nat) (hne : l ≠ []) :
    (derivedStrides v l).getLast? = some v := by
  induction l with
  | nil => exact absurd rfl hne
  | cons x t ih =>
    cases t with
    | nil => rfl
    | cons y ys =>
      have h := ih (by simp)
      cases hd : derivedStrides v (y :: ys) with
      | nil => rw [hd] at h; cases h
      | cons a as =>
        rw [hd] at h
        simpa [derivedStrides, hd, List.getLast?_cons_cons] using h

theorem getElem?_derivedStrides (v : Nat) (l : List Nat) (i : Nat) (hi : i + 1 < l.length) :
    (derivedStrides v l)[i]? = some ((l.drop (i + 1)).prod * v % size_t_mod) := by
  induction l generalizing i with
  | nil => simp at hi
  | cons x t ih =>
    cases t with
    | nil => simp at hi
    | cons y ys =>
      cases i with
      | zero => simp [derivedStrides]
      | succ j =>
        have hj : j + 1 < (y :: ys).length := by simpa using hi
        simpa [derivedStrides] using ih j hj


end miopen

namespace miopen
open TensorDescriptor miopenTensorLayout_t

theorem vector_length_nonvec (d : TensorDescriptor) (h : NonVectorized d.tensorLayout) :
    (CalculateVectorLength d).vector_length = 1 := by
  obtain ⟨h1, h2, h3, h4⟩ := h
  simp [CalculateVectorLength, h1, h2, h3, h4]

theorem divideChannel_nonvec (d : TensorDescriptor) (h : NonVectorized d.tensorLayout) :
    divideChannel (CalculateVectorLength d) = .ok d.lens := by
  obtain ⟨h1, h2, h3, h4⟩ := h
  simp [divideChannel, CalculateVectorLength, h1, h2, h3, h4]

theorem yieldsDerived_of_divideChannel (d : TensorDescriptor) (lens1 : List Nat)
    (hne : d.lens ≠ []) (hdiv : divideChannel d = .ok lens1) :
    YieldsDerived (CalculateStrides d) d.vector_length lens1 := by
  refine ⟨_, CalculateStrides_eq d lens1 hne hdiv, rfl, length_derivedStrides _ _, ?_, ?_⟩
  · apply getLast?_derivedStrides
    intro h
    have := divideChannel_length hdiv
    rw [h] at this
    exact hne (List.length_eq_zero.1 this.symm)
  · intro i hi
    show (derivedStrides d.vector_length lens1)[i]? = _
    rw [getElem?_derivedStrides _ _ _ hi, Nat.mul_comm]

theorem yieldsDerived_nonvec (d : TensorDescriptor) (h : NonVectorized d.tensorLayout)
    (hne : d.lens ≠ []) :
    YieldsDerived (CalculateStrides (CalculateVectorLength d)) 1 d.lens := by
  have := yieldsDerived_of_divideChannel (CalculateVectorLength d) d.lens hne
    (divideChannel_nonvec d h)
  rwa [vector_length_nonvec d h] at this

theorem intRange_self (p : List Int) : intRange p p.length = .ok p := by
  simp [intRange]

theorem all_nonneg {p : List Int} (h : ∀ x ∈ p, 0 ≤ x) :
    (p.all fun x => decide (x ≥ 0)) = true := by
  simpa [List.all_eq_true] using h

/-- Claim C1. For a non-vectorized layout and a non-empty list of lengths, each
constructor that derives strides returns a descriptor which keeps the lengths and has
one stride per length, the innermost stride `1` and every other stride the product of
the lengths to its right modulo `2 ^ 64`. The constructors from `int` arrays are
covered for non-negative lengths. -/
theorem C1_derived_strides_row_major (dflt playout : miopenTensorLayout_t)
    (t : miopenDataType_t) (plens : List Nat) (ilens : List Int)
    (hdflt : NonVectorized dflt) (hlayout : NonVectorized playout)
    (hne : plens ≠ []) (hine : ilens ≠ []) (hpos : ∀ x ∈ ilens, 0 ≤ x) :
    YieldsDerived (ctor_lens dflt t plens) 1 plens ∧
    YieldsDerived (ctor_layout_lens t playout plens) 1 plens ∧
    YieldsDerived (ctor_int dflt t ilens ilens.length) 1 (ilens.map toSz) ∧
    YieldsDerived (ctor_layout_int t playout ilens ilens.length) 1 (ilens.map toSz) := by
  have hmap : ilens.map toSz ≠ [] := by simpa using hine
  refine ⟨yieldsDerived_nonvec _ hdflt hne, yieldsDerived_nonvec _ hlayout hne, ?_, ?_⟩
  · have := yieldsDerived_nonvec
      { lens := ilens.map toSz, strides := [], packed := true, type := t, tensorLayout := dflt,
        vector_length := 1 } hdflt hmap
    simpa [ctor_int, intRange_self, all_nonneg hpos, bind, Except.bind] using this
  · have := yieldsDerived_nonvec
      { lens := ilens.map toSz, strides := [], packed := true, type := t,
        tensorLayout := playout, vector_length := 1 } hlayout hmap
    simpa [ctor_layout_int, intRange_self, all_nonneg hpos, bind, Except.bind] using this

/-- The example of C1: lengths `[2, 3, 4, 5]` give strides `[60, 20, 5, 1]`. -/
theorem C1_derived_strides_row_major_witness :
    (ctor_layout_lens .miopenFloat miopenTensorNCHW [2, 3, 4, 5]).map (fun d => d.strides)
        = .ok [60, 20, 5, 1] ∧
      YieldsDerived (ctor_lens miopenTensorNCHW .miopenFloat [2, 3, 4, 5]) 1 [2, 3, 4, 5] ∧
      YieldsDerived (ctor_layout_lens .miopenFloat miopenTensorNHWC [2, 3, 4, 5]) 1 [2, 3, 4, 5] ∧
      YieldsDerived (ctor_int miopenTensorNCHW .miopenFloat [2, 3] 2) 1 [2, 3] ∧
      YieldsDerived (ctor_layout_int .miopenFloat miopenTensorNHWC [2, 3] 2) 1 [2, 3] :=
  ⟨by rfl,
    C1_derived_strides_row_major miopenTensorNCHW miopenTensorNHWC .miopenFloat [2, 3, 4, 5]
      [2, 3] (by decide) (by decide) (by decide) (by decide) (by decide)⟩

end miopen

namespace miopen
open TensorDescriptor miopenTensorLayout_t

theorem yieldsDerived_vec (d : TensorDescriptor) (chan v c : Nat)
    (hfam : (d.tensorLayout, chan, v) ∈
      [(miopenTensorNCHWc4, 1, 4), (miopenTensorNCHWc8, 1, 8),
       (miopenTensorCHWNc4, 0, 4), (miopenTensorCHWNc8, 0, 8)])
    (hc : d.lens[chan]? = some c) :
    YieldsDerived (CalculateStrides (CalculateVectorLength d)) v (d.lens.set chan (c / v)) := by
  have hlt : chan < d.lens.length := by
    rcases Nat.lt_or_ge chan d.lens.length with h | h
    · exact h
    · rw [List.getElem?_eq_none h] at hc; cases hc
  have hne : d.lens ≠ [] := by
    intro h; rw [h] at hlt; simp at hlt
  obtain ⟨_, hget⟩ := List.getElem?_eq_some.1 hc
  have key : (CalculateVectorLength d).vector_length = v ∧
      divideChannel (CalculateVectorLength d) = .ok (d.lens.set chan (c / v)) := by
    simp only [List.mem_cons, Prod.mk.injEq, List.mem_singleton, List.not_mem_nil, or_false] at hfam
    rcases hfam with ⟨h, rfl, rfl⟩ | ⟨h, rfl, rfl⟩ | ⟨h, rfl, rfl⟩ | ⟨h, rfl, rfl⟩ <;>
      simp [CalculateVectorLength, divideChannel, divAt, h, hlt, hget]
  have := yieldsDerived_of_divideChannel (CalculateVectorLength d) _ hne key.2
  rwa [key.1] at this

/-- Claim C2. For a vectorized layout with vector length `v` and channel dimension
`chan` (`1` and `4` or `8` for NCHWc4 and NCHWc8, `0` and `4` or `8` for CHWNc4 and
CHWNc8) and lengths that have a channel length `c`, each constructor that derives
strides returns a descriptor whose channel length is `c / v`, whose other lengths are
kept, whose innermost stride is `v` and whose every other stride is `v` times the
product of the stored lengths to its right modulo `2 ^ 64`. The constructors from
`int` arrays are covered for non-negative lengths. -/
theorem C2_derived_strides_vectorized (playout : miopenTensorLayout_t) (t : miopenDataType_t)
    (chan v c ci : Nat) (plens : List Nat) (ilens : List Int)
    (hfam : (playout, chan, v) ∈
      [(miopenTensorNCHWc4, 1, 4), (miopenTensorNCHWc8, 1, 8),
       (miopenTensorCHWNc4, 0, 4), (miopenTensorCHWNc8, 0, 8)])
    (hc : plens[chan]? = some c)
    (hpos : ∀ x ∈ ilens, 0 ≤ x) (hci : (ilens.map toSz)[chan]? = some ci) :
    YieldsDerived (ctor_layout_lens t playout plens) v (plens.set chan (c / v)) ∧
    YieldsDerived (ctor_lens playout t plens) v (plens.set chan (c / v)) ∧
    YieldsDerived (ctor_layout_int t playout ilens ilens.length) v
      ((ilens.map toSz).set chan (ci / v)) ∧
    YieldsDerived (ctor_int playout t ilens ilens.length) v
      ((ilens.map toSz).set chan (ci / v)) := by
  have h1 := yieldsDerived_vec
    { lens := plens, strides := [], packed := true, type := t, tensorLayout := playout,
      vector_length := 1 } chan v c hfam hc
  have h2 := yieldsDerived_vec
    { lens := ilens.map toSz, strides := [], packed := true, type := t, tensorLayout := playout,
      vector_length := 1 } chan v ci hfam hci
  refine ⟨h1, h1, ?_, ?_⟩
  · simpa [ctor_layout_int, intRange_self, all_nonneg hpos, bind, Except.bind] using h2
  · simpa [ctor_int, intRange_self, all_nonneg hpos, bind, Except.bind] using h2

/-- The example of C2: NCHWc4 with channel length `8` stores channel length `2` and
innermost stride `4`. -/
theorem C2_derived_strides_vectorized_witness :
    (ctor_layout_lens .miopenFloat miopenTensorNCHWc4 [2, 8, 4, 5]).map
        (fun d => (d.lens, d.strides)) = .ok ([2, 2, 4, 5], [160, 80, 20, 4]) ∧
      YieldsDerived (ctor_layout_lens .miopenFloat miopenTensorNCHWc4 [2, 8, 4, 5]) 4
        ([2, 8, 4, 5].set 1 (8 / 4)) ∧
      YieldsDerived (ctor_lens miopenTensorNCHWc4 .miopenFloat [2, 8, 4, 5]) 4
        ([2, 8, 4, 5].set 1 (8 / 4)) ∧
      YieldsDerived (ctor_layout_int .miopenFloat miopenTensorNCHWc4 [3, 9] [3, 9].length) 4
        (([3, 9].map toSz).set 1 (9 / 4)) ∧
      YieldsDerived (ctor_int miopenTensorNCHWc4 .miopenFloat [3, 9] [3, 9].length) 4
        (([3, 9].map toSz).set 1 (9 / 4)) :=
  ⟨by rfl,
    C2_derived_strides_vectorized miopenTensorNCHWc4 .miopenFloat 1 4 8 9 [2, 8, 4, 5] [3, 9]
      (by decide) (by rfl) (by decide) (by rfl)⟩

end miopen

namespace miopen
open TensorDescriptor miopenTensorLayout_t

theorem zipWith_subSz_ones (l : List Nat) :
    List.zipWith subSz l (List.replicate l.length 1) = l.map (fun x => subSz x 1) := by
  induction l with
  | nil => rfl
  | cons x t ih => simp [List.replicate_succ, ih]

theorem inner_product_eq (as bs : List Nat) (acc : Nat) (hlen : as.length ≤ bs.length)
    (hacc : acc < size_t_mod) :
    inner_product as bs acc
      = .ok ((acc + (List.zipWith (fun a b => a * b) as bs).sum) % size_t_mod) := by
  induction as generalizing bs acc with
  | nil => simp [inner_product, Nat.mod_eq_of_lt hacc]
  | cons a as ih =>
    cases bs with
    | nil => simp at hlen
    | cons b bs =>
      have hlen1 : as.length ≤ bs.length := by simpa using hlen
      rw [inner_product, ih bs _ hlen1 (addSz_lt _ _)]
      congr 1
      apply eq_of_cast_eq (Nat.mod_lt _ (by norm_num)) (Nat.mod_lt _ (by norm_num))
      simp only [ZMod.natCast_mod, Nat.cast_add, cast_addSz, cast_mulSz, List.zipWith_cons_cons,
        List.sum_cons, Nat.cast_mul]
      ring

theorem foldl_mulSz_eq (l : List Nat) (v : Nat) (hv : v < size_t_mod) :
    List.foldl mulSz v l = v * l.prod % size_t_mod := by
  have hlt : ∀ (xs : List Nat) (a : Nat), a < size_t_mod → List.foldl mulSz a xs < size_t_mod := by
    intro xs
    induction xs with
    | nil => intro a ha; simpa using ha
    | cons x xs ih => intro a _; exact ih _ (mulSz_lt _ _)
  apply eq_of_cast_eq (hlt l v hv) (Nat.mod_lt _ (by norm_num))
  rw [cast_foldl_mulSz, ZMod.natCast_mod, Nat.cast_mul]

theorem GetElementSize_eq (d : TensorDescriptor) (hlen : d.lens.length = d.strides.length)
    (hv : d.vector_length < size_t_mod) : GetElementSize d = .ok (elementCount d) := by
  simp [GetElementSize, hlen, accumulate, elementCount, foldl_mulSz_eq _ _ hv]

theorem GetElementSpace_eq (d : TensorDescriptor) (hlen : d.lens.length = d.strides.length) :
    GetElementSpace d = .ok (elementSpace d) := by
  have h := inner_product_eq (d.lens.map fun x => subSz x 1) d.strides 0
    (by simp [hlen]) (by norm_num)
  simp only [GetElementSpace, zipWith_subSz_ones, h, bind, Except.bind, pure, Except.pure,
    elementSpace, List.zipWith_map_left, addSz]
  simp

theorem GetElementSize_ok_length {d : TensorDescriptor} {n : Nat}
    (h : GetElementSize d = .ok n) : d.lens.length = d.strides.length := by
  unfold GetElementSize at h
  split at h
  · assumption
  · cases h

/-- The sum of `(lens[i] - 1) * strides[i]` over derived strides telescopes. -/
theorem cast_sum_derived (v : Nat) (l : List Nat) :
    (((List.zipWith (fun a s => subSz a 1 * s) l (derivedStrides v l)).sum : Nat) :
        ZMod size_t_mod) + v = v * (l.prod : Nat) := by
  induction l with
  | nil => simp [derivedStrides]
  | cons x t ih =>
    cases t with
    | nil =>
      simp only [derivedStrides, List.zipWith_cons_cons, List.zipWith_nil_right, List.sum_cons,
        List.sum_nil, Nat.cast_add, Nat.cast_mul, cast_subSz, List.prod_cons, List.prod_nil]
      push_cast
      ring
    | cons y ys =>
      have e : ((List.zipWith (fun a s => subSz a 1 * s) (y :: ys)
          (derivedStrides v (y :: ys))).sum : ZMod size_t_mod)
            = v * ((y :: ys).prod : Nat) - v := by
        rw [← ih]; ring
      rw [derivedStrides, List.zipWith_cons_cons, List.sum_cons, Nat.cast_add, e, Nat.cast_mul,
        cast_subSz, ZMod.natCast_mod, List.prod_cons (a := x), Nat.cast_mul, Nat.cast_mul]
      push_cast
      ring

theorem elementCount_eq_elementSpace_derived (d : TensorDescriptor)
    (h : d.strides = derivedStrides d.vector_length d.lens) :
    elementCount d = elementSpace d := by
  unfold elementCount elementSpace
  apply eq_of_cast_eq (Nat.mod_lt _ (by norm_num)) (Nat.mod_lt _ (by norm_num))
  rw [ZMod.natCast_mod, ZMod.natCast_mod, Nat.cast_add, h, cast_sum_derived, Nat.cast_mul]

end miopen

namespace miopen
open TensorDescriptor miopenTensorLayout_t

theorem vector_length_lt (d : TensorDescriptor) :
    (CalculateVectorLength d).vector_length < size_t_mod := by
  unfold CalculateVectorLength
  dsimp only
  split_ifs <;> norm_num

theorem CalculateStrides_shape {d0 d : TensorDescriptor} (h : CalculateStrides d0 = .ok d) :
    d.packed = d0.packed ∧ d.vector_length = d0.vector_length ∧
      d.strides = derivedStrides d.vector_length d.lens := by
  by_cases hne : d0.lens = []
  · rw [CalculateStrides_nil d0 hne] at h
    cases h
    simp [hne, derivedStrides]
  · cases hdiv : divideChannel d0 with
    | error e =>
      have hemp : (List.replicate d0.lens.length 0).isEmpty = false := by
        cases hl : d0.lens with
        | nil => exact absurd hl hne
        | cons a b => rfl
      unfold CalculateStrides at h
      simp [hemp, hdiv, bind, Except.bind] at h
    | ok lens1 =>
      rw [CalculateStrides_eq d0 lens1 hne hdiv] at h
      cases h
      simp

theorem packed_of_derived {d0 d : TensorDescriptor} (hp : d0.packed = true)
    (h : CalculateStrides (CalculateVectorLength d0) = .ok d) :
    GetElementSize d = .ok (elementCount d) ∧ GetElementSpace d = .ok (elementSpace d) ∧
      d.packed = decide (elementCount d = elementSpace d) ∧
      d.packed = true ∧ elementCount d = elementSpace d := by
  obtain ⟨h1, h2, h3⟩ := CalculateStrides_shape h
  have hlen : d.lens.length = d.strides.length := by
    rw [h3, length_derivedStrides]
  have hv : d.vector_length < size_t_mod := h2 ▸ vector_length_lt d0
  have heq := elementCount_eq_elementSpace_derived d h3
  have hp1 : d.packed = true := by rw [h1]; exact hp
  exact ⟨GetElementSize_eq d hlen hv, GetElementSpace_eq d hlen, by simp [hp1, heq], hp1, heq⟩

theorem packed_of_setPacked {d0 d : TensorDescriptor}
    (h : setPacked (CalculateVectorLength d0) = .ok d) :
    GetElementSize d = .ok (elementCount d) ∧ GetElementSpace d = .ok (elementSpace d) ∧
      d.packed = decide (elementCount d = elementSpace d) := by
  unfold setPacked at h
  cases hs : GetElementSize (CalculateVectorLength d0) with
  | error e => simp [hs, bind, Except.bind] at h
  | ok size =>
    have hlen := GetElementSize_ok_length hs
    have hs1 := GetElementSize_eq _ hlen (vector_length_lt d0)
    have hp1 := GetElementSpace_eq _ hlen
    simp only [hs1, hp1, bind, Except.bind, pure, Except.pure, Except.ok.injEq] at h
    subst h
    exact ⟨GetElementSize_eq _ hlen (vector_length_lt d0), GetElementSpace_eq _ hlen, rfl⟩

/-- The constructors that are given strides return a descriptor whenever there is one
stride per length. -/
theorem construct_supplied_strides_returns (dflt : miopenTensorLayout_t) (t : miopenDataType_t)
    (playout : miopenTensorLayout_t) (plens pstrides : List Nat)
    (hlen : plens.length = pstrides.length) :
    (∃ d, construct dflt (.lens_strides t plens pstrides) = .ok d) ∧
    (∃ d, construct dflt (.layout_lens_strides t playout plens pstrides) = .ok d) := by
  have key : ∀ d0 : TensorDescriptor, d0.lens.length = d0.strides.length →
      ∃ d, setPacked (CalculateVectorLength d0) = .ok d := by
    intro d0 h0
    have hs := GetElementSize_eq (CalculateVectorLength d0) h0 (vector_length_lt d0)
    have hp := GetElementSpace_eq (CalculateVectorLength d0) h0
    unfold setPacked
    rw [hs, hp]
    exact ⟨_, rfl⟩
  exact ⟨key _ hlen, key _ hlen⟩

/-- Claim C3. Every descriptor that a constructor taking lengths returns has
`GetElementSize() = vector_length * product of lens` and
`GetElementSpace() = sum of (lens[i] - 1) * strides[i] + vector_length`, both modulo
`2 ^ 64`, and its packed flag is the equality of the two. When the constructor derives
the strides, the two are equal and the flag is `true`. -/
theorem C3_packed_iff_size_eq_space (dflt : miopenTensorLayout_t) (c : CtorCall)
    (d : TensorDescriptor) (h : construct dflt c = .ok d) :
    GetElementSize d = .ok (elementCount d) ∧ GetElementSpace d = .ok (elementSpace d) ∧
      d.packed = decide (elementCount d = elementSpace d) ∧
      (c.derivesStrides = true → d.packed = true ∧ elementCount d = elementSpace d) := by
  cases c with
  | lens t plens =>
    have := packed_of_derived rfl h
    exact ⟨this.1, this.2.1, this.2.2.1, fun _ => this.2.2.2⟩
  | layout_lens t playout plens =>
    have := packed_of_derived rfl h
    exact ⟨this.1, this.2.1, this.2.2.1, fun _ => this.2.2.2⟩
  | lens_strides t plens pstrides =>
    have := packed_of_setPacked h
    exact ⟨this.1, this.2.1, this.2.2, fun hd => by cases hd⟩
  | layout_lens_strides t layout_in lens_in strides_in =>
    have := packed_of_setPacked h
    exact ⟨this.1, this.2.1, this.2.2, fun hd => by cases hd⟩
  | int t plens size =>
    simp only [construct, ctor_int, bind, Except.bind] at h
    split at h
    · cases h
    · split_ifs at h
      have := packed_of_derived rfl h
      exact ⟨this.1, this.2.1, this.2.2.1, fun _ => this.2.2.2⟩
  | int_strides t plens pstrides size =>
    simp only [construct, ctor_int_strides, bind, Except.bind] at h
    split at h
    · cases h
    · split at h
      · cases h
      · split_ifs at h
        have := packed_of_setPacked h
        exact ⟨this.1, this.2.1, this.2.2, fun hd => by cases hd⟩
  | layout_int t playout plens size =>
    simp only [construct, ctor_layout_int, bind, Except.bind] at h
    split at h
    · cases h
    · split_ifs at h
      have := packed_of_derived rfl h
      exact ⟨this.1, this.2.1, this.2.2.1, fun _ => this.2.2.2⟩

/-- C3 at a padded descriptor (lengths `[2, 3]`, strides `[4, 1]`: count `6`, space
`7`, not packed) and at a vectorized descriptor with a zero length (count and space
`0`, packed). -/
theorem C3_packed_iff_size_eq_space_witness :
    (construct miopenTensorNCHW (.lens_strides .miopenFloat [2, 3] [4, 1])
        = .ok ⟨[2, 3], [4, 1], false, .miopenFloat, miopenTensorNCHW, 1⟩ ∧
      GetElementSize ⟨[2, 3], [4, 1], false, .miopenFloat, miopenTensorNCHW, 1⟩ = .ok 6 ∧
      GetElementSpace ⟨[2, 3], [4, 1], false, .miopenFloat, miopenTensorNCHW, 1⟩ = .ok 7) ∧
    (construct miopenTensorNCHW (.layout_lens .miopenFloat miopenTensorNCHWc4 [2, 8, 0])
        = .ok ⟨[2, 2, 0], [0, 0, 4], true, .miopenFloat, miopenTensorNCHWc4, 4⟩ ∧
      GetElementSize ⟨[2, 2, 0], [0, 0, 4], true, .miopenFloat, miopenTensorNCHWc4, 4⟩ = .ok 0 ∧
      GetElementSpace ⟨[2, 2, 0], [0, 0, 4], true, .miopenFloat, miopenTensorNCHWc4, 4⟩
        = .ok 0) :=
  ⟨⟨rfl, (C3_packed_iff_size_eq_space miopenTensorNCHW
      (.lens_strides .miopenFloat [2, 3] [4, 1]) _ rfl).1,
    (C3_packed_iff_size_eq_space miopenTensorNCHW
      (.lens_strides .miopenFloat [2, 3] [4, 1]) _ rfl).2.1⟩,
   ⟨rfl, (C3_packed_iff_size_eq_space miopenTensorNCHW
      (.layout_lens .miopenFloat miopenTensorNCHWc4 [2, 8, 0]) _ rfl).1,
    (C3_packed_iff_size_eq_space miopenTensorNCHW
      (.layout_lens .miopenFloat miopenTensorNCHWc4 [2, 8, 0]) _ rfl).2.1⟩⟩

end miopen

namespace miopen
namespace solver
open AnySolver_tmpl

/-- The counterexample to C4 as stated: the primary record is present and rejected,
the alternate record loads and is accepted, and `GetPerfCfgParams` returns the empty
string, which is not the serialization of the alternate record. -/
theorem C4_primary_rejected_returns_empty :
    fixtureEnv.Load [("New", "bad"), ("Old", "good")] 0 "New" "" = (true, "bad") ∧
    (fixtureTunable false).tunable.map (fun tn => tn.IsValidPerformanceConfig 0 "bad")
      = some false ∧
    (fixtureTunable false).AltSolverDbId.isEmpty = false ∧
    fixtureEnv.Load [("New", "bad"), ("Old", "good")] 0 "Old" "bad" = (true, "good") ∧
    (fixtureTunable false).tunable.map (fun tn => tn.IsValidPerformanceConfig 0 "good")
      = some true ∧
    (fixtureTunable false).tunable.map (fun tn => tn.ToString "good") = some "good" ∧
    ((AnySolver.ofSolver (fixtureTunable false)).GetPerfCfgParams fixtureEnv 0
      [("New", "bad"), ("Old", "good")]).result = .ok "" ∧
    "" ≠ "good" := by
  refine ⟨by rfl, by rfl, by rfl, by rfl, by rfl, by rfl, by rfl, by decide⟩

/-- Claim C4, amended. For a handle bound to a Tunable solver with a non-empty alternate
identifier: when the load under the primary identifier finds no record, the load
under the alternate identifier finds one and `IsValidPerformanceConfig` accepts it,
`GetPerfCfgParams` returns the serialization of the alternate record; when the load
under the primary identifier finds a record that `IsValidPerformanceConfig` rejects,
it returns the empty string and the alternate identifier is not loaded. -/
theorem C4_alternate_record (S : Sig) (E : Env S) (v : AnySolver_tmpl S) (tn : Tunable S)
    (ctx : S.Ctx) (db : S.Db) (cfg1 : S.Config)
    (htun : v.tunable = some tn) (halt : v.AltSolverDbId.isEmpty = false) :
    (∀ cfg2,
      E.Load db (E.problem (E.toCtx (E.problem ctx))) v.SolverDbId tn.init = (false, cfg1) →
      E.Load db (E.problem (E.toCtx (E.problem ctx))) v.AltSolverDbId cfg1 = (true, cfg2) →
      tn.IsValidPerformanceConfig (E.toCtx (E.problem ctx)) cfg2 = true →
      (AnySolver.ofSolver v).GetPerfCfgParams E ctx db
        = ⟨[.Load v.SolverDbId, .Load v.AltSolverDbId, .IsValidPerformanceConfig cfg2],
            .ok (tn.ToString cfg2)⟩) ∧
    (E.Load db (E.problem (E.toCtx (E.problem ctx))) v.SolverDbId tn.init = (true, cfg1) →
      tn.IsValidPerformanceConfig (E.toCtx (E.problem ctx)) cfg1 = false →
      (AnySolver.ofSolver v).GetPerfCfgParams E ctx db
        = ⟨[.Load v.SolverDbId, .IsValidPerformanceConfig cfg1], .ok ""⟩) := by
  constructor
  · intro cfg2 h1 h2 hv
    simp [AnySolver.GetPerfCfgParams, AnySolver.deref, AnySolver.ofSolver,
      AnySolver_tmpl.GetPerfCfgParams, GetPerfCfgParams_true, htun, halt, h1, h2, hv,
      bind, Run.andThen, Run.call, pure, Run.ret]
  · intro h1 hv
    simp [AnySolver.GetPerfCfgParams, AnySolver.deref, AnySolver.ofSolver,
      AnySolver_tmpl.GetPerfCfgParams, GetPerfCfgParams_true, htun, h1, hv,
      bind, Run.andThen, Run.call, pure, Run.ret]

/-- C4 (amended) at the concrete solver: with only the record `"Old"` stored, its
config is returned; with a rejected record `"New"` stored, the result is empty. -/
theorem C4_alternate_record_witness :
    (AnySolver.ofSolver (fixtureTunable false)).GetPerfCfgParams fixtureEnv 0 [("Old", "good")]
        = ⟨[.Load "New", .Load "Old", .IsValidPerformanceConfig "good"], .ok "good"⟩ ∧
    (AnySolver.ofSolver (fixtureTunable false)).GetPerfCfgParams fixtureEnv 0
        [("New", "bad"), ("Old", "good")]
        = ⟨[.Load "New", .IsValidPerformanceConfig "bad"], .ok ""⟩ :=
  ⟨(C4_alternate_record fixtureSig fixtureEnv (fixtureTunable false)
      ⟨"", fun _ config => config != "bad", fun config => config, fun ctx => [ctx, ctx + 1]⟩
      0 [("Old", "good")] "" rfl rfl).1 "good" rfl rfl rfl,
   (C4_alternate_record fixtureSig fixtureEnv (fixtureTunable false)
      ⟨"", fun _ config => config != "bad", fun config => config, fun ctx => [ctx, ctx + 1]⟩
      0 [("New", "bad"), ("Old", "good")] "bad" rfl rfl).2 rfl rfl⟩

/-- Claim C5. For a handle bound to a solver that is Tunable and Legacy, `GetAllSolutions`
throws `No solutions returned for Legacy Solvers.` for every problem, and it does so
without any call into the solver. -/
theorem C5_tunable_legacy_throws (S : Sig) (v : AnySolver_tmpl S) (tn : Tunable S)
    (ctx : S.Ctx) :
    (AnySolver.ofSolver { v with tunable := some tn, legacy := true }).GetAllSolutions ctx
      = ⟨[], .error (.exception "No solutions returned for Legacy Solvers.")⟩ := by
  rfl

/-- Claim C6. For a handle bound to a solver that is not Tunable, Legacy or not,
`IsTunable` returns `false` and `GetAllSolutions` returns the one-element sequence of
the solver's `GetSolution(ctx)`, obtained by a single call of `GetSolution`. -/
theorem C6_non_tunable_default_solution (S : Sig) (v : AnySolver_tmpl S) (legacy : Bool)
    (ctx : S.Ctx) :
    (AnySolver.ofSolver { v with tunable := none, legacy := legacy }).IsTunable
      = ⟨[], .ok false⟩ ∧
    (AnySolver.ofSolver { v with tunable := none, legacy := legacy }).GetAllSolutions ctx
      = ⟨[.GetSolution], .ok [v.GetSolution ctx]⟩ := by
  cases legacy <;> exact ⟨rfl, rfl⟩

/-- Claim C7. `TestSysDbRecord` always returns a value; it returns `true` exactly when
the solver is Tunable, `record.GetValues` under the solver's `SolverDbId` succeeds and
`IsValidPerformanceConfig` accepts the config read. For a solver that is not Tunable
it returns `false` without any call, and when `GetValues` fails the validator is not
called. -/
theorem C7_TestSysDbRecord (S : Sig) (E : Env S) (v : AnySolver_tmpl S) (ctx : S.Ctx)
    (record : S.Record) :
    (∃ b, ((AnySolver.ofSolver v).TestSysDbRecord E ctx record).result = .ok b) ∧
    (((AnySolver.ofSolver v).TestSysDbRecord E ctx record).result = .ok true ↔
      ∃ tn, v.tunable = some tn ∧
        (E.GetValues record v.SolverDbId tn.init).1 = true ∧
        tn.IsValidPerformanceConfig ctx (E.GetValues record v.SolverDbId tn.init).2 = true) ∧
    (v.tunable = none →
      (AnySolver.ofSolver v).TestSysDbRecord E ctx record = ⟨[], .ok false⟩) ∧
    (∀ tn, v.tunable = some tn → (E.GetValues record v.SolverDbId tn.init).1 = false →
      (AnySolver.ofSolver v).TestSysDbRecord E ctx record
        = ⟨[.GetValues v.SolverDbId], .ok false⟩) := by
  cases htun : v.tunable with
  | none =>
    simp [AnySolver.TestSysDbRecord, AnySolver.deref, AnySolver.ofSolver,
      AnySolver_tmpl.TestSysDbRecord, TestSysDbRecord_false, htun, pure, Run.ret]
  | some tn =>
    cases hget : E.GetValues record v.SolverDbId tn.init with
    | mk success config =>
      cases success <;>
        simp [AnySolver.TestSysDbRecord, AnySolver.deref, AnySolver.ofSolver,
          AnySolver_tmpl.TestSysDbRecord, TestSysDbRecord_true, htun, hget,
          bind, Run.andThen, Run.call, pure, Run.ret]

/-- C7 at the concrete solver and a record that holds an accepted config under
`"New"`. -/
theorem C7_TestSysDbRecord_witness :
    ((AnySolver.ofSolver (fixtureTunable false)).TestSysDbRecord fixtureEnv 0
        [("New", "good")]).result = .ok true ∧
    (AnySolver.ofSolver (fixturePlain false)).TestSysDbRecord fixtureEnv 0 [("New", "good")]
        = ⟨[], .ok false⟩ ∧
    (AnySolver.ofSolver (fixtureTunable false)).TestSysDbRecord fixtureEnv 0 [("Old", "good")]
        = ⟨[.GetValues "New"], .ok false⟩ :=
  ⟨(C7_TestSysDbRecord fixtureSig fixtureEnv (fixtureTunable false) 0
      [("New", "good")]).2.1.2 ⟨_, rfl, rfl, rfl⟩,
   (C7_TestSysDbRecord fixtureSig fixtureEnv (fixturePlain false) 0
      [("New", "good")]).2.2.1 rfl,
   (C7_TestSysDbRecord fixtureSig fixtureEnv (fixtureTunable false) 0
      [("Old", "good")]).2.2.2 _ rfl rfl⟩

end solver
end miopen

namespace miopen
open TensorDescriptor miopenTensorLayout_t

theorem toSz_lt (x : Int) : toSz x < size_t_mod := by
  unfold toSz
  have h1 : x % (size_t_mod : Int) < size_t_mod := Int.emod_lt_of_pos _ (by norm_num)
  have h0 : 0 ≤ x % (size_t_mod : Int) := Int.emod_nonneg _ (by norm_num)
  omega

theorem inner_product_coords (cs : List Int) (strides : List Nat) (acc : Nat)
    (hlen : cs.length ≤ strides.length) (hacc : acc < size_t_mod) :
    inner_product (cs.map toSz) strides acc
      = .ok ((acc + (List.zipWith (fun c s => toSz c * s) cs strides).sum) % size_t_mod) := by
  rw [inner_product_eq _ _ _ (by simpa using hlen) hacc, List.zipWith_map_left]

theorem bind_ok {ε α β : Type} (a : α) (f : α → Except ε β) :
    (Except.ok a >>= f) = f a := rfl

theorem subSz_succ_one (n : Nat) (h : n + 1 < size_t_mod) : subSz (n + 1) 1 = n := by
  simp only [subSz, size_t_mod] at *
  omega

/-- Claim C8. For a descriptor whose layout is not in the CHWNc family and a tuple that
the assertion of `GetIndex` accepts: when the descriptor is not vectorized, `GetIndex`
returns the sum of `c_i * strides[i]`; when it is vectorized, the leading coordinate
`v` is added as it is and `GetIndex` returns `v` plus the sum of `c_i * strides[i]`
over the remaining coordinates (coordinates converted to `std::size_t`, arithmetic
modulo `2 ^ 64`). -/
theorem C8_GetIndex_inner_product (d : TensorDescriptor) (v : Int) (cs : List Int)
    (hlayout : GetLayout_str d ≠ "CHWNc") (hsize : d.lens.length = d.strides.length)
    (harity : cs.length ≤ d.lens.length) (hfit : cs.length + 1 < size_t_mod) :
    (IsVectorized d = false →
      GetIndex d cs
        = .ok ((List.zipWith (fun c s => toSz c * s) cs d.strides).sum % size_t_mod)) ∧
    (IsVectorized d = true →
      GetIndex d (v :: cs)
        = .ok ((toSz v + (List.zipWith (fun c s => toSz c * s) cs d.strides).sum)
            % size_t_mod)) := by
  have hlen : cs.length ≤ d.strides.length := hsize ▸ harity
  have hgs : GetSize d = .ok d.lens.length := by simp only [GetSize, hsize, if_true]
  constructor
  · intro hv
    have := inner_product_coords cs d.strides 0 hlen (by norm_num)
    rw [Nat.zero_add] at this
    unfold GetIndex
    rw [if_neg hlayout, hv, hgs, if_pos (by simp), bind_ok, if_pos harity]
    exact this
  · intro hv
    have := inner_product_coords cs d.strides (toSz v) hlen (toSz_lt v)
    have hs : subSz (v :: cs).length 1 ≤ d.lens.length := by
      have e : subSz (v :: cs).length 1 = cs.length := subSz_succ_one _ hfit
      exact e.symm ▸ harity
    unfold GetIndex
    rw [if_neg hlayout, hv, hgs, if_neg (by simp), bind_ok, if_pos hs]
    exact this

/-- C8 at the NCHW descriptor with strides `[60, 20, 5, 1]` and at the NCHWc4
descriptor with strides `[160, 80, 20, 4]`. -/
theorem C8_GetIndex_inner_product_witness :
    GetIndex ⟨[2, 3, 4, 5], [60, 20, 5, 1], true, .miopenFloat, miopenTensorNCHW, 1⟩ [1, 2, 3, 4]
        = .ok 119 ∧
    GetIndex ⟨[2, 2, 4, 5], [160, 80, 20, 4], true, .miopenFloat, miopenTensorNCHWc4, 4⟩
        [3, 1, 1, 3, 4] = .ok 319 :=
  ⟨(C8_GetIndex_inner_product
      ⟨[2, 3, 4, 5], [60, 20, 5, 1], true, .miopenFloat, miopenTensorNCHW, 1⟩ 0 [1, 2, 3, 4]
      (by decide) rfl (by decide) (by norm_num)).1 rfl,
   (C8_GetIndex_inner_product
      ⟨[2, 2, 4, 5], [160, 80, 20, 4], true, .miopenFloat, miopenTensorNCHWc4, 4⟩ 3 [1, 1, 3, 4]
      (by decide) rfl (by decide) (by norm_num)).2 rfl⟩

end miopen
namespace miopen
open TensorDescriptor miopenTensorLayout_t

theorem GetLayout_str_CHWNc (d : TensorDescriptor)
    (h : d.tensorLayout = miopenTensorCHWNc4 ∨ d.tensorLayout = miopenTensorCHWNc8) :
    GetLayout_str d = "CHWNc" := by
  rcases h with h | h <;> simp [GetLayout_str, h]

/-- Claim C9. For a descriptor with four dimensions and a CHWNc layout, `GetIndex` of the
tuple `(v, n, c, h, w)` is `v + c * strides[0] + h * strides[1] + w * strides[2] +
n * strides[3]` (coordinates converted to `std::size_t`, arithmetic modulo `2 ^ 64`):
the coordinates are taken in the order C, H, W, N. -/
theorem C9_GetIndex_CHWNc (d : TensorDescriptor) (v n c h w : Int) (s0 s1 s2 s3 : Nat)
    (hlayout : d.tensorLayout = miopenTensorCHWNc4 ∨ d.tensorLayout = miopenTensorCHWNc8)
    (hdims : d.lens.length = 4) (hstrides : d.strides = [s0, s1, s2, s3]) :
    GetIndex d [v, n, c, h, w]
      = .ok ((toSz v + (toSz c * s0 + toSz h * s1 + toSz w * s2 + toSz n * s3))
          % size_t_mod) := by
  have hgs : GetSize d = .ok 4 := by simp [GetSize, hdims, hstrides]
  have hs : subSz [v, n, c, h, w].length 1 ≤ 4 :=
    (subSz_succ_one 4 (by norm_num)).le
  have hip := inner_product_coords [c, h, w, n] [s0, s1, s2, s3] (toSz v) (by simp) (toSz_lt v)
  have hsum : (List.zipWith (fun c s => toSz c * s) [c, h, w, n] [s0, s1, s2, s3]).sum
      = toSz c * s0 + toSz h * s1 + toSz w * s2 + toSz n * s3 := by
    simp [add_assoc]
  rw [hsum] at hip
  unfold GetIndex
  rw [if_pos (GetLayout_str_CHWNc d hlayout), hgs, bind_ok, if_pos hs, hstrides]
  exact hip

/-- C9 at the CHWNc4 descriptor derived from lengths `[8, 3, 4, 5]`. -/
theorem C9_GetIndex_CHWNc_witness :
    GetIndex ⟨[2, 3, 4, 5], [240, 80, 20, 4], true, .miopenFloat, miopenTensorCHWNc4, 4⟩
      [3, 4, 1, 2, 3] = .ok 479 :=
  C9_GetIndex_CHWNc ⟨[2, 3, 4, 5], [240, 80, 20, 4], true, .miopenFloat, miopenTensorCHWNc4, 4⟩
    3 4 1 2 3 240 80 20 4 (Or.inl rfl) rfl rfl

end miopen
namespace miopen
open TensorDescriptor miopenTensorLayout_t

theorem inner_product_ne_assertion (as bs : List Nat) (acc : Nat) :
    inner_product as bs acc ≠ .error .assertion := by
  induction as generalizing bs acc with
  | nil => simp [inner_product]
  | cons a as ih =>
    cases bs with
    | nil => simp [inner_product]
    | cons b bs => rw [inner_product]; exact ih _ _

theorem subSz_one_le_iff (n dims : Nat) (hn : n < size_t_mod) (hd : dims + 1 < size_t_mod) :
    subSz n 1 ≤ dims ↔ 0 < n ∧ n ≤ dims + 1 := by
  simp only [subSz, size_t_mod] at *
  omega

/-- The counterexample to C10 as stated: a tuple of one coordinate for a descriptor
of two dimensions passes the assertion, and `GetIndex` returns an offset. -/
theorem C10_fewer_coordinates_accepted :
    [(1 : Int)].length ≠
        (TensorDescriptor.mk [2, 3] [3, 1] true .miopenFloat miopenTensorNCHW 1).lens.length ∧
      GetIndex ⟨[2, 3], [3, 1], true, .miopenFloat, miopenTensorNCHW, 1⟩ [1] = .ok 3 :=
  ⟨by decide, rfl⟩

/-- Claim C10, amended. For a descriptor with one stride per length, the assertion of
`GetIndex` fails exactly for a tuple with more coordinates than the descriptor has
dimensions: for a non-vectorized descriptor when `l.size() > GetSize()`, for a
vectorized one (NCHWc or CHWNc) when the tuple is empty or has more than
`GetSize() + 1` coordinates. A tuple with fewer coordinates passes the assertion. -/
theorem C10_GetIndex_assertion (d : TensorDescriptor) (l : List Int)
    (hsize : d.lens.length = d.strides.length)
    (hdims : d.lens.length + 1 < size_t_mod) (harity : l.length < size_t_mod) :
    (GetLayout_str d ≠ "CHWNc" → IsVectorized d = false →
      (GetIndex d l = .error .assertion ↔ d.lens.length < l.length)) ∧
    (GetLayout_str d = "CHWNc" ∨ IsVectorized d = true →
      (GetIndex d l = .error .assertion ↔ l = [] ∨ d.lens.length + 1 < l.length)) := by
  have hgs : GetSize d = .ok d.lens.length := by simp only [GetSize, hsize, if_true]
  have hiff := subSz_one_le_iff l.length d.lens.length harity hdims
  have hnil : l = [] ↔ l.length = 0 := List.length_eq_zero.symm
  constructor
  · intro hlayout hv
    unfold GetIndex
    rw [if_neg hlayout, hv, hgs, if_pos (by simp), bind_ok]
    by_cases hc : l.length ≤ d.lens.length
    · rw [if_pos hc]
      exact ⟨fun he => absurd he (inner_product_ne_assertion _ _ _), fun hlt => by omega⟩
    · rw [if_neg hc]
      exact ⟨fun _ => by omega, fun _ => rfl⟩
  · intro hcase
    by_cases hlayout : GetLayout_str d = "CHWNc"
    · unfold GetIndex
      rw [if_pos hlayout, hgs, bind_ok]
      by_cases hc : subSz l.length 1 ≤ d.lens.length
      · rw [if_pos hc]
        constructor
        · intro he
          exfalso
          revert he
          split
          · exact inner_product_ne_assertion _ _ _
          · intro he; cases he
        · intro hlt
          have := hiff.1 hc
          rw [hnil] at hlt
          omega
      · rw [if_neg hc]
        refine ⟨fun _ => ?_, fun _ => rfl⟩
        have := mt hiff.2 hc
        rw [hnil]
        omega
    · have hv : IsVectorized d = true := hcase.resolve_left hlayout
      unfold GetIndex
      rw [if_neg hlayout, hv, hgs, if_neg (by simp), bind_ok]
      by_cases hc : subSz l.length 1 ≤ d.lens.length
      · rw [if_pos hc]
        constructor
        · intro he
          exfalso
          revert he
          split
          · exact inner_product_ne_assertion _ _ _
          · intro he; cases he
        · intro hlt
          have := hiff.1 hc
          rw [hnil] at hlt
          omega
      · rw [if_neg hc]
        refine ⟨fun _ => ?_, fun _ => rfl⟩
        have := mt hiff.2 hc
        rw [hnil]
        omega

/-- C10 (amended) at a two-dimensional descriptor: three coordinates fail the
assertion, and so does the empty tuple for the vectorized descriptor. -/
theorem C10_GetIndex_assertion_witness :
    GetIndex ⟨[2, 3], [3, 1], true, .miopenFloat, miopenTensorNCHW, 1⟩ [1, 2, 3]
        = .error .assertion ∧
    GetIndex ⟨[2, 3], [12, 4], true, .miopenFloat, miopenTensorNCHWc4, 4⟩ []
        = .error .assertion :=
  ⟨((C10_GetIndex_assertion ⟨[2, 3], [3, 1], true, .miopenFloat, miopenTensorNCHW, 1⟩
      [1, 2, 3] rfl (by norm_num) (by norm_num)).1 (by decide) rfl).2 (by decide),
   ((C10_GetIndex_assertion ⟨[2, 3], [12, 4], true, .miopenFloat, miopenTensorNCHWc4, 4⟩
      [] rfl (by norm_num) (by norm_num)).2 (Or.inr rfl)).2 (Or.inl rfl)⟩

end miopen

namespace miopen
open TensorDescriptor miopenTensorLayout_t

theorem vector_lt_iff (l1 l2 : List Nat) :
    vector_lt l1 l2 = true ↔ List.Lex (· < ·) l1 l2 := by
  induction l1 generalizing l2 with
  | nil =>
    cases l2 with
    | nil => simp [vector_lt]
    | cons b bs => simpa [vector_lt] using List.Lex.nil
  | cons a as ih =>
    cases l2 with
    | nil => simp [vector_lt]
    | cons b bs =>
      rw [vector_lt]
      rcases Nat.lt_trichotomy a b with h | h | h
      · simpa [h] using List.Lex.rel h
      · subst h
        simp [ih, List.Lex.cons_iff]
      · have h1 : ¬ a < b := by omega
        simp only [h, h1, if_true, if_false, Bool.false_eq_true, false_iff]
        intro hl
        cases hl with
        | cons _ => omega
        | rel h' => omega

theorem vector_lt_irrefl (l : List Nat) : vector_lt l l = false := by
  induction l with
  | nil => rfl
  | cons a as ih => simp [vector_lt, ih]

theorem vector_lt_trichotomy (l1 l2 : List Nat) :
    vector_lt l1 l2 = false → vector_lt l2 l1 = false → l1 = l2 := by
  intro h1 h2
  have n1 : ¬ List.Lex (· < ·) l1 l2 := by rw [← vector_lt_iff, h1]; simp
  have n2 : ¬ List.Lex (· < ·) l2 l1 := by rw [← vector_lt_iff, h2]; simp
  rcases trichotomous_of (List.Lex (fun a b : Nat => a < b)) l1 l2 with h | h | h
  · exact absurd h n1
  · exact h
  · exact absurd h n2

/-- The counterexample to C11 as stated: two descriptors that differ in the element
type only are not equal under `operator==`, and neither is smaller than the other
under `operator<` or greater under `operator>`. -/
theorem C11_type_ignored_by_ordering :
    (TensorDescriptor.mk [2, 3] [3, 1] true .miopenFloat miopenTensorNCHW 1).type ≠
      (TensorDescriptor.mk [2, 3] [3, 1] true .miopenHalf miopenTensorNCHW 1).type ∧
    operator_eq ⟨[2, 3], [3, 1], true, .miopenFloat, miopenTensorNCHW, 1⟩
      ⟨[2, 3], [3, 1], true, .miopenHalf, miopenTensorNCHW, 1⟩ = .ok false ∧
    operator_lt ⟨[2, 3], [3, 1], true, .miopenFloat, miopenTensorNCHW, 1⟩
      ⟨[2, 3], [3, 1], true, .miopenHalf, miopenTensorNCHW, 1⟩ = false ∧
    operator_lt ⟨[2, 3], [3, 1], true, .miopenHalf, miopenTensorNCHW, 1⟩
      ⟨[2, 3], [3, 1], true, .miopenFloat, miopenTensorNCHW, 1⟩ = false ∧
    operator_gt ⟨[2, 3], [3, 1], true, .miopenFloat, miopenTensorNCHW, 1⟩
      ⟨[2, 3], [3, 1], true, .miopenHalf, miopenTensorNCHW, 1⟩ = false :=
  ⟨by decide, rfl, rfl, rfl, rfl⟩

/-- Claim C11, amended. `operator<` is the lexicographic order on the pair (lengths,
strides), each compared lexicographically, and `operator>` is `operator<` with the
sides exchanged; the element type takes no part. Two descriptors are equivalent under
the ordering exactly when they have the same lengths and strides, so descriptors that
differ in the element type only are equivalent under the ordering although `operator==`,
which compares the triple (type, lengths, strides), tells them apart. -/
theorem C11_ordering_on_lengths_and_strides (a b : TensorDescriptor) :
    (operator_lt a b = true ↔
      List.Lex (· < ·) a.lens b.lens ∨
        (a.lens = b.lens ∧ List.Lex (· < ·) a.strides b.strides)) ∧
    operator_gt a b = operator_lt b a ∧
    ((operator_lt a b = false ∧ operator_lt b a = false) ↔
      (a.lens = b.lens ∧ a.strides = b.strides)) ∧
    (a.lens.length = b.strides.length →
      operator_eq a b
        = .ok (decide (a.type = b.type ∧ a.lens = b.lens ∧ a.strides = b.strides))) := by
  have hlt : ∀ x y : TensorDescriptor, operator_lt x y = true ↔
      List.Lex (· < ·) x.lens y.lens ∨
        (x.lens = y.lens ∧ List.Lex (· < ·) x.strides y.strides) := by
    intro x y
    unfold operator_lt tie_lt
    rw [Bool.or_eq_true, Bool.and_eq_true, vector_lt_iff, vector_lt_iff, Bool.not_eq_true']
    constructor
    · rintro (h | ⟨h1, h2⟩)
      · exact Or.inl h
      · by_cases h3 : vector_lt x.lens y.lens = true
        · exact Or.inl ((vector_lt_iff _ _).1 h3)
        · exact Or.inr ⟨vector_lt_trichotomy _ _ (by simpa using h3) h1, h2⟩
    · rintro (h | ⟨h1, h2⟩)
      · exact Or.inl h
      · exact Or.inr ⟨by rw [h1]; exact vector_lt_irrefl _, h2⟩
  refine ⟨hlt a b, rfl, ?_, ?_⟩
  · constructor
    · rintro ⟨h1, h2⟩
      have n1 : ¬ (operator_lt a b = true) := by simp [h1]
      have n2 : ¬ (operator_lt b a = true) := by simp [h2]
      rw [hlt] at n1 n2
      push_neg at n1 n2
      have e1 : a.lens = b.lens :=
        vector_lt_trichotomy _ _
          (by simpa using mt (vector_lt_iff _ _).1 n1.1)
          (by simpa using mt (vector_lt_iff _ _).1 n2.1)
      refine ⟨e1, vector_lt_trichotomy _ _ ?_ ?_⟩
      · simpa using mt (vector_lt_iff _ _).1 (n1.2 e1)
      · simpa using mt (vector_lt_iff _ _).1 (n2.2 e1.symm)
    · rintro ⟨h1, h2⟩
      simp [operator_lt, tie_lt, h1, h2, vector_lt_irrefl]
  · intro h
    simp [operator_eq, h, Bool.and_assoc]

/-- C11 (amended) at the lengths `[2, 3]` against `[2, 4]`, with different element
types. -/
theorem C11_ordering_on_lengths_and_strides_witness :
    operator_eq ⟨[2, 3], [3, 1], true, .miopenFloat, miopenTensorNCHW, 1⟩
      ⟨[2, 4], [4, 1], true, .miopenHalf, miopenTensorNCHW, 1⟩ = .ok false ∧
    operator_lt ⟨[2, 3], [3, 1], true, .miopenFloat, miopenTensorNCHW, 1⟩
      ⟨[2, 4], [4, 1], true, .miopenHalf, miopenTensorNCHW, 1⟩ = true :=
  ⟨(C11_ordering_on_lengths_and_strides
      ⟨[2, 3], [3, 1], true, .miopenFloat, miopenTensorNCHW, 1⟩
      ⟨[2, 4], [4, 1], true, .miopenHalf, miopenTensorNCHW, 1⟩).2.2.2 rfl,
   (C11_ordering_on_lengths_and_strides
      ⟨[2, 3], [3, 1], true, .miopenFloat, miopenTensorNCHW, 1⟩
      ⟨[2, 4], [4, 1], true, .miopenHalf, miopenTensorNCHW, 1⟩).1.2
      (Or.inl (List.Lex.cons (List.Lex.rel (by decide))))⟩

end miopen
namespace miopen
open TensorDescriptor miopenTensorLayout_t

theorem get_to_vector_unsigned (l : List Nat) :
    Json.get_to_vector (.array (l.map .number_unsigned)) = .ok l := by
  have h : ∀ xs : List Nat, (xs.map Json.number_unsigned).mapM Json.get_size_t = .ok xs := by
    intro xs
    induction xs with
    | nil => rfl
    | cons x xs ih =>
      rw [List.map_cons, List.mapM_cons, ih]
      rfl
  exact h l

theorem from_json_to_json (V : EnumValues) (d target : TensorDescriptor) :
    from_json V (to_json V d) target
      = .ok { target with lens := d.lens, strides := d.strides, packed := d.packed,
                          type := d.type } := by
  have h1 : (to_json V d).at "lengths" = .ok (.array (d.lens.map .number_unsigned)) := rfl
  have h2 : (to_json V d).at "strides" = .ok (.array (d.strides.map .number_unsigned)) := rfl
  have h3 : (to_json V d).at "packed" = .ok (.boolean d.packed) := rfl
  have h4 : (to_json V d).at "type" = .ok (.number_integer (V.toInt d.type)) := rfl
  unfold from_json
  rw [h1, h2, h3, h4]
  simp only [bind_ok, get_to_vector_unsigned, Json.get_to_bool, Json.get_to_enum,
    V.ofInt_toInt, pure, Except.pure]

/-- Claim C12. For every descriptor `d` and every target, `from_json` of `to_json d`
returns the target with the lengths, strides, packed flag and element type of `d`;
when `d` has one stride per length (the assertion of `operator==`), the descriptor
returned compares equal to `d` under `operator==`, in both directions. -/
theorem C12_json_round_trip (V : EnumValues) (d target : TensorDescriptor) :
    from_json V (to_json V d) target
      = .ok ⟨d.lens, d.strides, d.packed, d.type, target.tensorLayout, target.vector_length⟩ ∧
    (d.lens.length = d.strides.length →
      operator_eq
          ⟨d.lens, d.strides, d.packed, d.type, target.tensorLayout, target.vector_length⟩ d
        = .ok true ∧
      operator_eq d
          ⟨d.lens, d.strides, d.packed, d.type, target.tensorLayout, target.vector_length⟩
        = .ok true) := by
  refine ⟨from_json_to_json V d target, fun h => ?_⟩
  simp [operator_eq, h]

/-- C12 at the padded descriptor with lengths `[2, 3]` and strides `[4, 1]`, restored
into a default-constructed target. -/
theorem C12_json_round_trip_witness :
    from_json fixtureEnumValues
        (to_json fixtureEnumValues ⟨[2, 3], [4, 1], false, .miopenHalf, miopenTensorNHWC, 1⟩)
        ⟨[], [], true, .miopenFloat, miopenTensorNCHW, 1⟩
      = .ok ⟨[2, 3], [4, 1], false, .miopenHalf, miopenTensorNCHW, 1⟩ ∧
    operator_eq ⟨[2, 3], [4, 1], false, .miopenHalf, miopenTensorNCHW, 1⟩
      ⟨[2, 3], [4, 1], false, .miopenHalf, miopenTensorNHWC, 1⟩ = .ok true :=
  ⟨(C12_json_round_trip fixtureEnumValues
      ⟨[2, 3], [4, 1], false, .miopenHalf, miopenTensorNHWC, 1⟩
      ⟨[], [], true, .miopenFloat, miopenTensorNCHW, 1⟩).1,
   ((C12_json_round_trip fixtureEnumValues
      ⟨[2, 3], [4, 1], false, .miopenHalf, miopenTensorNHWC, 1⟩
      ⟨[], [], true, .miopenFloat, miopenTensorNCHW, 1⟩).2 rfl).1⟩

end miopen
namespace miopen
open TensorDescriptor miopenTensorLayout_t

theorem all_nonneg_iff (p : List Int) :
    (p.all fun x => decide (x ≥ 0)) = true ↔ ∀ x ∈ p, 0 ≤ x := by
  simp [List.all_eq_true]

theorem not_all_nonneg_iff (p : List Int) :
    ¬ (p.all fun x => decide (x ≥ 0)) = true ↔ ∃ x ∈ p, x < 0 := by
  rw [all_nonneg_iff]
  push_neg
  rfl

theorem CalculateStrides_error {d : TensorDescriptor} {e : Failure}
    (h : CalculateStrides d = .error e) : e = .undefined := by
  by_cases hne : d.lens = []
  · rw [CalculateStrides_nil d hne] at h
    cases h
  · cases hdiv : divideChannel d with
    | ok lens1 =>
      rw [CalculateStrides_eq d lens1 hne hdiv] at h
      cases h
    | error e' =>
      have he' : e' = .undefined := by
        unfold divideChannel divAt at hdiv
        split_ifs at hdiv <;> cases hdiv <;> rfl
      have hemp : (List.replicate d.lens.length 0).isEmpty = false := by
        cases hl : d.lens with
        | nil => exact absurd hl hne
        | cons a b => rfl
      unfold CalculateStrides at h
      simp only [hemp, hdiv, bind, Except.bind, Bool.false_eq_true, if_false] at h
      cases h
      exact he'

theorem CalculateStrides_nonvec_returns (d : TensorDescriptor)
    (h : NonVectorized d.tensorLayout) :
    ∃ r, CalculateStrides (CalculateVectorLength d) = .ok r := by
  by_cases hne : d.lens = []
  · exact ⟨_, CalculateStrides_nil _ hne⟩
  · exact ⟨_, CalculateStrides_eq _ _ hne (divideChannel_nonvec d h)⟩

/-- Claim C13. A constructor from `int` arrays throws exactly when a supplied length is
negative or, for the constructor that takes strides, a supplied stride is negative.
A negative length is reported as `Invalid length`, also when a stride is negative too;
a negative stride is reported as `Invalid strides` when no length is negative. Lengths
and strides that are all at least `0` are accepted: the constructor with strides
returns a descriptor, and so do the two others for a non-vectorized layout. -/
theorem C13_negative_lengths_and_strides (dflt playout : miopenTensorLayout_t)
    (t : miopenDataType_t) (plens pstrides : List Int)
    (hsize : pstrides.length = plens.length) :
    ((∃ msg, ctor_int dflt t plens plens.length = .error (.exception msg)) ↔
      ∃ x ∈ plens, x < 0) ∧
    ((∃ msg, ctor_layout_int t playout plens plens.length = .error (.exception msg)) ↔
      ∃ x ∈ plens, x < 0) ∧
    ((∃ msg, ctor_int_strides dflt t plens pstrides plens.length = .error (.exception msg)) ↔
      (∃ x ∈ plens, x < 0) ∨ (∃ s ∈ pstrides, s < 0)) ∧
    ((∃ x ∈ plens, x < 0) →
      ctor_int dflt t plens plens.length
        = .error (.exception "Invalid length. Length must be greater than 0.") ∧
      ctor_layout_int t playout plens plens.length
        = .error (.exception "Invalid length. Length must be greater than 0.") ∧
      ctor_int_strides dflt t plens pstrides plens.length
        = .error (.exception "Invalid length. Length must be greater than 0.")) ∧
    ((∀ x ∈ plens, 0 ≤ x) → (∃ s ∈ pstrides, s < 0) →
      ctor_int_strides dflt t plens pstrides plens.length
        = .error (.exception "Invalid strides. Strides must be greater than 0.")) ∧
    ((∀ x ∈ plens, 0 ≤ x) → (∀ s ∈ pstrides, 0 ≤ s) →
      ∃ d, ctor_int_strides dflt t plens pstrides plens.length = .ok d) ∧
    ((∀ x ∈ plens, 0 ≤ x) → NonVectorized dflt →
      ∃ d, ctor_int dflt t plens plens.length = .ok d) ∧
    ((∀ x ∈ plens, 0 ≤ x) → NonVectorized playout →
      ∃ d, ctor_layout_int t playout plens plens.length = .ok d) := by
  have hr2 : intRange pstrides plens.length = .ok pstrides := by
    rw [← hsize]; exact intRange_self _
  -- the three constructors when a length is negative
  have hneg : (∃ x ∈ plens, x < 0) →
      ctor_int dflt t plens plens.length
        = .error (.exception "Invalid length. Length must be greater than 0.") ∧
      ctor_layout_int t playout plens plens.length
        = .error (.exception "Invalid length. Length must be greater than 0.") ∧
      ctor_int_strides dflt t plens pstrides plens.length
        = .error (.exception "Invalid length. Length must be greater than 0.") := by
    intro h
    have h' := (not_all_nonneg_iff plens).2 h
    refine ⟨?_, ?_, ?_⟩
    · unfold ctor_int
      rw [intRange_self, bind_ok, if_pos h']
    · unfold ctor_layout_int
      rw [intRange_self, bind_ok, if_pos h']
    · unfold ctor_int_strides
      rw [intRange_self, bind_ok, hr2, bind_ok, if_pos h']
  -- the two constructors without strides when no length is negative
  have hpos1 : (∀ x ∈ plens, 0 ≤ x) →
      ctor_int dflt t plens plens.length
        = CalculateStrides (CalculateVectorLength
            { lens := plens.map toSz, strides := [], packed := true, type := t,
              tensorLayout := dflt, vector_length := 1 }) := by
    intro h
    have h' : ¬ ¬ (plens.all fun x => decide (x ≥ 0)) = true :=
      not_not.2 ((all_nonneg_iff plens).2 h)
    unfold ctor_int
    rw [intRange_self, bind_ok, if_neg h']
  have hpos2 : (∀ x ∈ plens, 0 ≤ x) →
      ctor_layout_int t playout plens plens.length
        = CalculateStrides (CalculateVectorLength
            { lens := plens.map toSz, strides := [], packed := true, type := t,
              tensorLayout := playout, vector_length := 1 }) := by
    intro h
    have h' : ¬ ¬ (plens.all fun x => decide (x ≥ 0)) = true :=
      not_not.2 ((all_nonneg_iff plens).2 h)
    unfold ctor_layout_int
    rw [intRange_self, bind_ok, if_neg h']
  -- the constructor with strides when no length is negative
  have hstr : (∀ x ∈ plens, 0 ≤ x) → (∃ s ∈ pstrides, s < 0) →
      ctor_int_strides dflt t plens pstrides plens.length
        = .error (.exception "Invalid strides. Strides must be greater than 0.") := by
    intro h hs
    have h' : ¬ ¬ (plens.all fun x => decide (x ≥ 0)) = true :=
      not_not.2 ((all_nonneg_iff plens).2 h)
    unfold ctor_int_strides
    rw [intRange_self, bind_ok, hr2, bind_ok, if_neg h', if_pos ((not_all_nonneg_iff _).2 hs)]
  have hok : (∀ x ∈ plens, 0 ≤ x) → (∀ s ∈ pstrides, 0 ≤ s) →
      ∃ d, ctor_int_strides dflt t plens pstrides plens.length = .ok d := by
    intro h hs
    have h' : ¬ ¬ (plens.all fun x => decide (x ≥ 0)) = true :=
      not_not.2 ((all_nonneg_iff plens).2 h)
    have hs' : ¬ ¬ (pstrides.all fun x => decide (x ≥ 0)) = true :=
      not_not.2 ((all_nonneg_iff pstrides).2 hs)
    have hret := (construct_supplied_strides_returns dflt t dflt (plens.map toSz)
      (pstrides.map toSz) (by simp [hsize])).1
    unfold ctor_int_strides
    rw [intRange_self, bind_ok, hr2, bind_ok, if_neg h', if_neg hs']
    exact hret
  have hcases : (∃ x ∈ plens, x < 0) ∨ ∀ x ∈ plens, 0 ≤ x := by
    by_cases h : ∀ x ∈ plens, 0 ≤ x
    · exact Or.inr h
    · left; push_neg at h; exact h
  have hscases : (∃ s ∈ pstrides, s < 0) ∨ ∀ s ∈ pstrides, 0 ≤ s := by
    by_cases h : ∀ s ∈ pstrides, 0 ≤ s
    · exact Or.inr h
    · left; push_neg at h; exact h
  refine ⟨⟨?_, fun h => ⟨_, (hneg h).1⟩⟩, ⟨?_, fun h => ⟨_, (hneg h).2.1⟩⟩, ⟨?_, ?_⟩, hneg, hstr,
    hok, ?_, ?_⟩
  · rintro ⟨msg, hm⟩
    rcases hcases with h | h
    · exact h
    · rw [hpos1 h] at hm
      cases CalculateStrides_error hm
  · rintro ⟨msg, hm⟩
    rcases hcases with h | h
    · exact h
    · rw [hpos2 h] at hm
      cases CalculateStrides_error hm
  · rintro ⟨msg, hm⟩
    rcases hcases with h | h
    · exact Or.inl h
    · rcases hscases with hs | hs
      · exact Or.inr hs
      · obtain ⟨d, hd⟩ := hok h hs
        rw [hd] at hm
        cases hm
  · rintro (h | hs)
    · exact ⟨_, (hneg h).2.2⟩
    · rcases hcases with h | h
      · exact ⟨_, (hneg h).2.2⟩
      · exact ⟨_, hstr h hs⟩
  · intro h hv
    rw [hpos1 h]
    exact CalculateStrides_nonvec_returns _ hv
  · intro h hv
    rw [hpos2 h]
    exact CalculateStrides_nonvec_returns _ hv

/-- C13 at the lengths `[2, -1]` with strides `[-3, 1]` (the length is reported), at
the lengths `[2, 3]` with strides `[-3, 1]` (the stride is reported) and at lengths and
strides that hold `0` (accepted). -/
theorem C13_negative_lengths_and_strides_witness :
    ctor_int_strides miopenTensorNCHW .miopenFloat [2, -1] [-3, 1] 2
      = .error (.exception "Invalid length. Length must be greater than 0.") ∧
    ctor_int_strides miopenTensorNCHW .miopenFloat [2, 3] [-3, 1] 2
      = .error (.exception "Invalid strides. Strides must be greater than 0.") ∧
    (∃ d, ctor_int_strides miopenTensorNCHW .miopenFloat [0, 2] [0, 0] 2 = .ok d) ∧
    (∃ d, ctor_int miopenTensorNCHW .miopenFloat [0, 2] 2 = .ok d) :=
  ⟨((C13_negative_lengths_and_strides miopenTensorNCHW miopenTensorNCHW .miopenFloat
      [2, -1] [-3, 1] rfl).2.2.2.1 ⟨-1, by decide, by decide⟩).2.2,
   (C13_negative_lengths_and_strides miopenTensorNCHW miopenTensorNCHW .miopenFloat
      [2, 3] [-3, 1] rfl).2.2.2.2.1 (by decide) ⟨-3, by decide, by decide⟩,
   (C13_negative_lengths_and_strides miopenTensorNCHW miopenTensorNCHW .miopenFloat
      [0, 2] [0, 0] rfl).2.2.2.2.2.1 (by decide) (by decide),
   (C13_negative_lengths_and_strides miopenTensorNCHW miopenTensorNCHW .miopenFloat
      [0, 2] [0, 0] rfl).2.2.2.2.2.2.1 (by decide) (by decide)⟩

end miopen
namespace miopen
open TensorDescriptor miopenTensorLayout_t

/-- Claim C14. For a descriptor with one stride per length, `GetNumBytes()` returns
`w * GetElementSpace()` modulo `2 ^ 64`, where `w` is `1` for `miopenInt8` and
`miopenInt8x4`, `2` for `miopenHalf` and `miopenBFloat16`, `4` for `miopenFloat` and
`miopenInt32`, `8` for `miopenDouble`, and the result is `0` for any other element
type. -/
theorem C14_GetNumBytes (d : TensorDescriptor) (hsize : d.lens.length = d.strides.length) :
    GetElementSpace d = .ok (elementSpace d) ∧
    (d.type = .miopenInt8 ∨ d.type = .miopenInt8x4 →
      GetNumBytes d = .ok (1 * elementSpace d % size_t_mod)) ∧
    (d.type = .miopenHalf ∨ d.type = .miopenBFloat16 →
      GetNumBytes d = .ok (2 * elementSpace d % size_t_mod)) ∧
    (d.type = .miopenFloat ∨ d.type = .miopenInt32 →
      GetNumBytes d = .ok (4 * elementSpace d % size_t_mod)) ∧
    (d.type = .miopenDouble → GetNumBytes d = .ok (8 * elementSpace d % size_t_mod)) ∧
    (∀ tag, d.type = .other tag → GetNumBytes d = .ok 0) := by
  have hs := GetElementSpace_eq d hsize
  refine ⟨hs, ?_, ?_, ?_, ?_, ?_⟩
  · rintro (h | h) <;> (unfold GetNumBytes; rw [hs, h]; rfl)
  · rintro (h | h) <;> (unfold GetNumBytes; rw [hs, h]; rfl)
  · rintro (h | h) <;> (unfold GetNumBytes; rw [hs, h]; rfl)
  · intro h
    unfold GetNumBytes; rw [hs, h]; rfl
  · intro tag h
    unfold GetNumBytes
    rw [hs, h]
    show Except.ok (mulSz 0 (elementSpace d)) = Except.ok 0
    rw [mulSz, Nat.zero_mul, Nat.zero_mod]

/-- C14 at the descriptor with lengths `[2, 3]` and strides `[3, 1]` (element space
`6`): `24` bytes for `miopenFloat`, `0` bytes for an element type outside the table. -/
theorem C14_GetNumBytes_witness :
    GetNumBytes ⟨[2, 3], [3, 1], true, .miopenFloat, miopenTensorNCHW, 1⟩ = .ok 24 ∧
    GetNumBytes ⟨[2, 3], [3, 1], true, .other 0, miopenTensorNCHW, 1⟩ = .ok 0 :=
  ⟨(C14_GetNumBytes ⟨[2, 3], [3, 1], true, .miopenFloat, miopenTensorNCHW, 1⟩ rfl).2.2.2.1
      (Or.inl rfl),
   (C14_GetNumBytes ⟨[2, 3], [3, 1], true, .other 0, miopenTensorNCHW, 1⟩ rfl).2.2.2.2.2
      0 rfl⟩

end miopen

namespace miopen
namespace solver
open AnySolver_tmpl

theorem GetPerfCfgParams_tunable_eq (S : Sig) (E : Env S) (v : AnySolver_tmpl S)
    (tn : Tunable S) (ctx : S.Ctx) (db : S.Db) (htun : v.tunable = some tn) :
    (AnySolver.ofSolver v).GetPerfCfgParams E ctx db
      = if (primaryLoad E v tn ctx db).1 = true then
          if validFor E tn ctx (primaryLoad E v tn ctx db).2 = true then
            ⟨[.Load v.SolverDbId, .IsValidPerformanceConfig (primaryLoad E v tn ctx db).2],
              .ok (tn.ToString (primaryLoad E v tn ctx db).2)⟩
          else
            ⟨[.Load v.SolverDbId, .IsValidPerformanceConfig (primaryLoad E v tn ctx db).2],
              .ok ""⟩
        else if v.AltSolverDbId.isEmpty = true then ⟨[.Load v.SolverDbId], .ok ""⟩
        else if (alternateLoad E v tn ctx db).1 = true then
          if validFor E tn ctx (alternateLoad E v tn ctx db).2 = true then
            ⟨[.Load v.SolverDbId, .Load v.AltSolverDbId,
                .IsValidPerformanceConfig (alternateLoad E v tn ctx db).2],
              .ok (tn.ToString (alternateLoad E v tn ctx db).2)⟩
          else
            ⟨[.Load v.SolverDbId, .Load v.AltSolverDbId,
                .IsValidPerformanceConfig (alternateLoad E v tn ctx db).2],
              .ok ""⟩
        else ⟨[.Load v.SolverDbId, .Load v.AltSolverDbId], .ok ""⟩ := by
  unfold alternateLoad validFor
  cases h1 : primaryLoad E v tn ctx db with
  | mk found1 cfg1 =>
    unfold primaryLoad at h1
    cases h2 : E.Load db (E.problem (E.toCtx (E.problem ctx))) v.AltSolverDbId cfg1 with
    | mk found2 cfg2 =>
      cases found1 <;> cases found2 <;>
        cases hv1 : tn.IsValidPerformanceConfig (E.toCtx (E.problem ctx)) cfg1 <;>
        cases hv2 : tn.IsValidPerformanceConfig (E.toCtx (E.problem ctx)) cfg2 <;>
        cases he : v.AltSolverDbId.isEmpty <;>
        simp [AnySolver.GetPerfCfgParams, AnySolver.deref, AnySolver.ofSolver,
          AnySolver_tmpl.GetPerfCfgParams, GetPerfCfgParams_true, htun, h1, h2, hv1, hv2, he,
          bind, Run.andThen, Run.call, pure, Run.ret]

theorem TestSysDbRecord_returns (S : Sig) (E : Env S) (v : AnySolver_tmpl S) (ctx : S.Ctx)
    (record : S.Record) :
    ∃ b, ((AnySolver.ofSolver v).TestSysDbRecord E ctx record).result = .ok b := by
  cases htun : v.tunable with
  | none =>
    simp [AnySolver.TestSysDbRecord, AnySolver.deref, AnySolver.ofSolver,
      AnySolver_tmpl.TestSysDbRecord, TestSysDbRecord_false, htun, pure, Run.ret]
  | some tn =>
    cases hget : E.GetValues record v.SolverDbId tn.init with
    | mk success config =>
      cases success <;>
        simp [AnySolver.TestSysDbRecord, AnySolver.deref, AnySolver.ofSolver,
          AnySolver_tmpl.TestSysDbRecord, TestSysDbRecord_true, htun, hget,
          bind, Run.andThen, Run.call, pure, Run.ret]

/-- Claim C15. For a handle bound to a solver that is not Tunable, `GetPerfCfgParams`
returns the empty string without any call, so without a database load. For a Tunable
solver it always returns a string; the string is empty whenever neither the load under
the primary identifier nor the load under the alternate identifier both finds a record
and has it accepted by `IsValidPerformanceConfig`; and a string that is not empty is
the serialization of a config that was loaded and accepted. -/
theorem C15_empty_result (S : Sig) (E : Env S) (v : AnySolver_tmpl S) (ctx : S.Ctx)
    (db : S.Db) :
    (v.tunable = none →
      (AnySolver.ofSolver v).GetPerfCfgParams E ctx db = ⟨[], .ok ""⟩) ∧
    (∀ tn, v.tunable = some tn →
      (∃ s, ((AnySolver.ofSolver v).GetPerfCfgParams E ctx db).result = .ok s) ∧
      (¬ ((primaryLoad E v tn ctx db).1 = true ∧
            validFor E tn ctx (primaryLoad E v tn ctx db).2 = true) →
        ¬ ((alternateLoad E v tn ctx db).1 = true ∧
            validFor E tn ctx (alternateLoad E v tn ctx db).2 = true) →
        ((AnySolver.ofSolver v).GetPerfCfgParams E ctx db).result = .ok "") ∧
      (∀ s, ((AnySolver.ofSolver v).GetPerfCfgParams E ctx db).result = .ok s → s ≠ "" →
        ((primaryLoad E v tn ctx db).1 = true ∧
            validFor E tn ctx (primaryLoad E v tn ctx db).2 = true ∧
            s = tn.ToString (primaryLoad E v tn ctx db).2) ∨
        ((primaryLoad E v tn ctx db).1 = false ∧ v.AltSolverDbId.isEmpty = false ∧
            (alternateLoad E v tn ctx db).1 = true ∧
            validFor E tn ctx (alternateLoad E v tn ctx db).2 = true ∧
            s = tn.ToString (alternateLoad E v tn ctx db).2))) := by
  constructor
  · intro htun
    simp [AnySolver.GetPerfCfgParams, AnySolver.deref, AnySolver.ofSolver,
      AnySolver_tmpl.GetPerfCfgParams, GetPerfCfgParams_false, htun, pure, Run.ret]
  · intro tn htun
    rw [GetPerfCfgParams_tunable_eq S E v tn ctx db htun]
    refine ⟨?_, ?_, ?_⟩
    · split_ifs <;> exact ⟨_, rfl⟩
    · intro h1 h2
      by_cases a : (primaryLoad E v tn ctx db).1 = true
      · have b : ¬ validFor E tn ctx (primaryLoad E v tn ctx db).2 = true := fun b => h1 ⟨a, b⟩
        rw [if_pos a, if_neg b]
      · rw [if_neg a]
        by_cases c : v.AltSolverDbId.isEmpty = true
        · rw [if_pos c]
        · rw [if_neg c]
          by_cases d : (alternateLoad E v tn ctx db).1 = true
          · have e : ¬ validFor E tn ctx (alternateLoad E v tn ctx db).2 = true :=
              fun e => h2 ⟨d, e⟩
            rw [if_pos d, if_neg e]
          · rw [if_neg d]
    · intro s hs hne
      by_cases a : (primaryLoad E v tn ctx db).1 = true
      · rw [if_pos a] at hs
        by_cases b : validFor E tn ctx (primaryLoad E v tn ctx db).2 = true
        · rw [if_pos b] at hs
          exact Or.inl ⟨a, b, (Except.ok.inj hs).symm⟩
        · rw [if_neg b] at hs
          exact absurd (Except.ok.inj hs).symm hne
      · rw [if_neg a] at hs
        by_cases c : v.AltSolverDbId.isEmpty = true
        · rw [if_pos c] at hs
          exact absurd (Except.ok.inj hs).symm hne
        · rw [if_neg c] at hs
          by_cases d : (alternateLoad E v tn ctx db).1 = true
          · rw [if_pos d] at hs
            by_cases e : validFor E tn ctx (alternateLoad E v tn ctx db).2 = true
            · rw [if_pos e] at hs
              exact Or.inr ⟨by simpa using a, by simpa using c, d, e, (Except.ok.inj hs).symm⟩
            · rw [if_neg e] at hs
              exact absurd (Except.ok.inj hs).symm hne
          · rw [if_neg d] at hs
            exact absurd (Except.ok.inj hs).symm hne

/-- C15 at the concrete solvers: the solver that is not Tunable makes no call, and the
Tunable solver returns the empty string when both stored records are rejected. -/
theorem C15_empty_result_witness :
    (AnySolver.ofSolver (fixturePlain false)).GetPerfCfgParams fixtureEnv 0
        [("New", "good"), ("Old", "good")] = ⟨[], .ok ""⟩ ∧
    ((AnySolver.ofSolver (fixtureTunable false)).GetPerfCfgParams fixtureEnv 0
        [("New", "bad"), ("Old", "bad")]).result = .ok "" :=
  ⟨(C15_empty_result fixtureSig fixtureEnv (fixturePlain false) 0
      [("New", "good"), ("Old", "good")]).1 rfl,
   ((C15_empty_result fixtureSig fixtureEnv (fixtureTunable false) 0
      [("New", "bad"), ("Old", "bad")]).2
      ⟨"", fun _ config => config != "bad", fun config => config, fun ctx => [ctx, ctx + 1]⟩
      rfl).2.1 (by decide) (by decide)⟩

/-- Claim C16. For a handle bound to a Tunable solver: when the load under the primary
identifier finds a record and `IsValidPerformanceConfig` accepts it, `GetPerfCfgParams`
returns the serialization of that config, and its only calls are that load and that
validation, so the alternate identifier is not loaded. -/
theorem C16_primary_record (S : Sig) (E : Env S) (v : AnySolver_tmpl S) (tn : Tunable S)
    (ctx : S.Ctx) (db : S.Db) (htun : v.tunable = some tn)
    (hfound : (primaryLoad E v tn ctx db).1 = true)
    (hvalid : validFor E tn ctx (primaryLoad E v tn ctx db).2 = true) :
    (AnySolver.ofSolver v).GetPerfCfgParams E ctx db
      = ⟨[.Load v.SolverDbId, .IsValidPerformanceConfig (primaryLoad E v tn ctx db).2],
          .ok (tn.ToString (primaryLoad E v tn ctx db).2)⟩ := by
  rw [GetPerfCfgParams_tunable_eq S E v tn ctx db htun, if_pos hfound, if_pos hvalid]

/-- C16 at the concrete solver, with an accepted record under each identifier. -/
theorem C16_primary_record_witness :
    (AnySolver.ofSolver (fixtureTunable false)).GetPerfCfgParams fixtureEnv 0
        [("New", "fast"), ("Old", "good")]
      = ⟨[.Load "New", .IsValidPerformanceConfig "fast"], .ok "fast"⟩ :=
  C16_primary_record fixtureSig fixtureEnv (fixtureTunable false)
    ⟨"", fun _ config => config != "bad", fun config => config, fun ctx => [ctx, ctx + 1]⟩
    0 [("New", "fast"), ("Old", "good")] rfl rfl rfl

/-- Claim C17. A default-constructed handle is empty and a handle constructed from a
solver is bound. On an empty handle every member function other than `IsEmpty` fails
its assertion; on a bound handle no member function does, and the handle is bound
afterwards. -/
theorem C17_empty_and_bound (S : Sig) (E : Env S) (v : AnySolver_tmpl S) (op : Op S) :
    (AnySolver.empty : AnySolver S).IsEmpty = true ∧
    (AnySolver.ofSolver v).IsEmpty = false ∧
    (op ≠ .IsEmpty → ((AnySolver.empty : AnySolver S).exec E op).2 = .error .assertion) ∧
    ((AnySolver.empty : AnySolver S).exec E .IsEmpty).2 = .ok () ∧
    ((AnySolver.ofSolver v).exec E op).2 ≠ .error .assertion ∧
    ((AnySolver.ofSolver v).exec E op).1.IsEmpty = false := by
  refine ⟨rfl, rfl, ?_, rfl, ?_, ?_⟩
  · intro hop
    cases op <;> first | rfl | exact absurd rfl hop
  · cases op with
    | TestSysDbRecord ctx record =>
      obtain ⟨b, hb⟩ := (TestSysDbRecord_returns S E v ctx record)
      simp [AnySolver.exec, Run.outcome, hb, Except.map]
    | GetAllSolutions ctx =>
      cases ht : v.tunable <;> cases hl : v.legacy <;>
        simp [AnySolver.exec, Run.outcome, AnySolver.GetAllSolutions, AnySolver.deref,
          AnySolver.ofSolver, AnySolver_tmpl.GetAllSolutions, ht, hl, Run.fail, Run.call,
          bind, Run.andThen, pure, Run.ret, Except.map]
    | GetPerfCfgParams ctx db =>
      cases ht : v.tunable with
      | none =>
        simp [AnySolver.exec, Run.outcome, AnySolver.GetPerfCfgParams, AnySolver.deref,
          AnySolver.ofSolver, AnySolver_tmpl.GetPerfCfgParams, GetPerfCfgParams_false, ht,
          pure, Run.ret, Except.map]
      | some tn =>
        simp only [AnySolver.exec, Run.outcome]
        rw [GetPerfCfgParams_tunable_eq S E v tn ctx db ht]
        split_ifs <;> simp [Except.map]
    | _ =>
      simp [AnySolver.exec, Run.outcome, AnySolver.IsApplicable, AnySolver.IsTunable,
        AnySolver.IsDynamic, AnySolver.GetWti, AnySolver.typeid, AnySolver.FindSolution,
        AnySolver.GetSolverDbId, AnySolver.GetWorkspaceSize, AnySolver.MayNeedWorkspace,
        AnySolver.deref, AnySolver.ofSolver, Run.call, pure, Run.ret, Except.map]
  · cases op <;> rfl

/-- C17 at the concrete solver: `GetPerfCfgParams` on the empty handle fails the
assertion, on the bound handle it does not. -/
theorem C17_empty_and_bound_witness :
    ((AnySolver.empty : AnySolver fixtureSig).exec fixtureEnv (.GetPerfCfgParams 0 [])).2
      = .error .assertion ∧
    ((AnySolver.ofSolver (fixtureTunable false)).exec fixtureEnv (.GetPerfCfgParams 0 [])).2
      ≠ .error .assertion :=
  ⟨(C17_empty_and_bound fixtureSig fixtureEnv (fixtureTunable false)
      (.GetPerfCfgParams 0 [])).2.2.1 (by intro h; cases h),
   (C17_empty_and_bound fixtureSig fixtureEnv (fixtureTunable false)
      (.GetPerfCfgParams 0 [])).2.2.2.2.1⟩

end solver
end miopen

namespace miopen
open TensorDescriptor miopenTensorLayout_t

theorem mem_tuples (lens c : List Nat) :
    c ∈ tuples lens ↔ List.Forall₂ (fun ci li => ci < li) c lens := by
  induction lens generalizing c with
  | nil =>
    simp only [tuples, Finset.mem_singleton]
    constructor
    · rintro rfl; exact List.Forall₂.nil
    · intro h; cases h; rfl
  | cons l ls ih =>
    simp only [tuples, Finset.mem_image, Finset.mem_product, Finset.mem_range, Prod.exists]
    constructor
    · rintro ⟨a, b, ⟨ha, hb⟩, rfl⟩
      exact List.Forall₂.cons ha ((ih b).1 hb)
    · intro h
      cases h with
      | cons ha hb => exact ⟨_, _, ⟨ha, (ih _).2 hb⟩, rfl⟩

theorem card_tuples (lens : List Nat) : (tuples lens).card = lens.prod := by
  induction lens with
  | nil => rfl
  | cons l ls ih =>
    rw [tuples, Finset.card_image_of_injective, Finset.card_product, Finset.card_range, ih,
      List.prod_cons]
    rintro ⟨a, b⟩ ⟨a', b'⟩ h
    simp only [List.cons.injEq] at h
    rw [h.1, h.2]

theorem dot_le_of_mem_tuples (lens c s : List Nat) (h : c ∈ tuples lens) :
    dot c s ≤ dot (lens.map fun l => l - 1) s := by
  rw [mem_tuples] at h
  induction h generalizing s with
  | nil => simp [dot]
  | cons ha _ ih =>
    cases s with
    | nil => simp [dot]
    | cons b bs =>
      have := ih bs
      simp only [dot, List.zipWith_cons_cons, List.sum_cons, List.map_cons] at this ⊢
      have hab := Nat.mul_le_mul_right b (Nat.le_sub_one_of_lt ha)
      omega

/-- The counting argument: when the number of tuples is the size of the range of
offsets and distinct tuples have distinct offsets, every offset of the range is the
offset of a tuple. -/
theorem dense_of_injective (vl : Nat) (lens s : List Nat)
    (heq : vl * lens.prod = dot (lens.map fun l => l - 1) s + vl)
    (hinj : ∀ v v' c c', v < vl → v' < vl → c ∈ tuples lens → c' ∈ tuples lens →
      v + dot c s = v' + dot c' s → v = v' ∧ c = c') :
    ∀ o, o < vl * lens.prod → ∃ v c, v < vl ∧ c ∈ tuples lens ∧ v + dot c s = o := by
  intro o ho
  have hsub : (Finset.range vl ×ˢ tuples lens).image (fun p => p.1 + dot p.2 s)
      ⊆ Finset.range (vl * lens.prod) := by
    intro x hx
    simp only [Finset.mem_image, Finset.mem_product, Finset.mem_range, Prod.exists] at hx
    obtain ⟨v, c, ⟨hv, hc⟩, rfl⟩ := hx
    have := dot_le_of_mem_tuples lens c s hc
    rw [Finset.mem_range, heq]
    omega
  have hcard : ((Finset.range vl ×ˢ tuples lens).image (fun p => p.1 + dot p.2 s)).card
      = vl * lens.prod := by
    rw [Finset.card_image_of_injOn, Finset.card_product, Finset.card_range, card_tuples]
    rintro ⟨v, c⟩ hp ⟨v', c'⟩ hp' h
    simp only [Finset.coe_product, Finset.coe_range, Set.mem_prod, Set.mem_Iio,
      Finset.mem_coe] at hp hp'
    obtain ⟨h1, h2⟩ := hinj v v' c c' hp.1 hp'.1 hp.2 hp'.2 h
    rw [h1, h2]
  have himage := Finset.eq_of_subset_of_card_le hsub (by rw [Finset.card_range, hcard])
  have hmem : o ∈ (Finset.range vl ×ˢ tuples lens).image (fun p => p.1 + dot p.2 s) := by
    rw [himage]; exact Finset.mem_range.2 ho
  simp only [Finset.mem_image, Finset.mem_product, Finset.mem_range, Prod.exists] at hmem
  obtain ⟨v, c, ⟨hv, hc⟩, h⟩ := hmem
  exact ⟨v, c, hv, hc, h⟩

/-- The counting argument for a packed descriptor: when distinct tuples have distinct
offsets there are at most as many tuples as offsets below the element space, so the
element count does not wrap around, and with the packed flag the two are equal. -/
theorem dense_of_packed (vl : Nat) (lens s : List Nat)
    (hspace : dot (lens.map fun l => l - 1) s + vl < size_t_mod)
    (hpacked : vl * lens.prod % size_t_mod = dot (lens.map fun l => l - 1) s + vl)
    (hinj : ∀ v v' c c', v < vl → v' < vl → c ∈ tuples lens → c' ∈ tuples lens →
      v + dot c s = v' + dot c' s → v = v' ∧ c = c') :
    ∀ o, o < dot (lens.map fun l => l - 1) s + vl →
      ∃ v c, v < vl ∧ c ∈ tuples lens ∧ v + dot c s = o := by
  have hsub : (Finset.range vl ×ˢ tuples lens).image (fun p => p.1 + dot p.2 s)
      ⊆ Finset.range (dot (lens.map fun l => l - 1) s + vl) := by
    intro x hx
    simp only [Finset.mem_image, Finset.mem_product, Finset.mem_range, Prod.exists] at hx
    obtain ⟨v, c, ⟨hv, hc⟩, rfl⟩ := hx
    have := dot_le_of_mem_tuples lens c s hc
    rw [Finset.mem_range]
    omega
  have hcard : ((Finset.range vl ×ˢ tuples lens).image (fun p => p.1 + dot p.2 s)).card
      = vl * lens.prod := by
    rw [Finset.card_image_of_injOn, Finset.card_product, Finset.card_range, card_tuples]
    rintro ⟨v, c⟩ hp ⟨v', c'⟩ hp' h
    simp only [Finset.coe_product, Finset.coe_range, Set.mem_prod, Set.mem_Iio,
      Finset.mem_coe] at hp hp'
    obtain ⟨h1, h2⟩ := hinj v v' c c' hp.1 hp'.1 hp.2 hp'.2 h
    rw [h1, h2]
  have hle : vl * lens.prod ≤ dot (lens.map fun l => l - 1) s + vl := by
    have := Finset.card_le_card hsub
    rw [hcard, Finset.card_range] at this
    exact this
  have heq : vl * lens.prod = dot (lens.map fun l => l - 1) s + vl := by
    rw [← hpacked]
    exact (Nat.mod_eq_of_lt (lt_of_le_of_lt hle hspace)).symm
  intro o ho
  rw [← heq] at ho
  exact dense_of_injective vl lens s heq hinj o ho

end miopen
namespace miopen
open TensorDescriptor miopenTensorLayout_t

theorem toSz_natCast (x : Nat) (h : x < size_t_mod) : toSz (x : Int) = x := by
  simp only [toSz, size_t_mod] at *
  omega

theorem le_prod_of_mem (lens : List Nat) (hpos : ∀ l ∈ lens, 1 ≤ l) :
    ∀ l ∈ lens, l ≤ lens.prod := by
  induction lens with
  | nil => intro l hl; cases hl
  | cons a as ih =>
    have has : 1 ≤ as.prod := by
      have : ∀ xs : List Nat, (∀ l ∈ xs, 1 ≤ l) → 1 ≤ xs.prod := by
        intro xs
        induction xs with
        | nil => intro _; simp
        | cons y ys ihy =>
          intro h
          rw [List.prod_cons]
          exact Nat.mul_pos (h y (List.mem_cons_self _ _))
            (ihy fun l hl => h l (List.mem_cons_of_mem _ hl))
      exact this as fun l hl => hpos l (List.mem_cons_of_mem _ hl)
    have ha : 1 ≤ a := hpos a (List.mem_cons_self _ _)
    intro l hl
    rw [List.prod_cons]
    rcases List.mem_cons.1 hl with rfl | hmem
    · exact Nat.le_mul_of_pos_right _ has
    · exact le_trans (ih (fun l hl => hpos l (List.mem_cons_of_mem _ hl)) l hmem)
        (Nat.le_mul_of_pos_left _ ha)

theorem isInt_of_lt (a l : Nat) (ha : a < l) (hl : (l : Int) ≤ INT_MAX + 1) :
    IsInt (a : Int) := by
  simp only [IsInt, INT_MIN, INT_MAX] at *
  omega

theorem inBounds_of_mem_tuples (lens c : List Nat) (h : c ∈ tuples lens)
    (hint : ∀ l ∈ lens, (l : Int) ≤ INT_MAX + 1) :
    InBounds lens (c.map fun (x : Nat) => (x : Int)) := by
  rw [mem_tuples] at h
  unfold InBounds
  induction h with
  | nil => exact List.Forall₂.nil
  | @cons a b as bs ha _ ih =>
    exact List.Forall₂.cons
      ⟨isInt_of_lt a b ha (hint b (List.mem_cons_self _ _)), Int.natCast_nonneg _,
        Int.ofNat_lt.2 ha⟩
      (ih fun l hl => hint l (List.mem_cons_of_mem _ hl))

theorem length_of_mem_tuples (lens c : List Nat) (h : c ∈ tuples lens) :
    c.length = lens.length :=
  ((mem_tuples lens c).1 h).length_eq

theorem lt_of_mem_tuples (lens c : List Nat) (bound : Nat) (h : c ∈ tuples lens)
    (hb : ∀ l ∈ lens, l ≤ bound) : ∀ x ∈ c, x < bound := by
  rw [mem_tuples] at h
  induction h with
  | nil => intro x hx; cases hx
  | @cons a b as bs ha _ ih =>
    intro x hx
    rcases List.mem_cons.1 hx with rfl | hmem
    · exact lt_of_lt_of_le ha (hb b (List.mem_cons_self _ _))
    · exact ih (fun l hl => hb l (List.mem_cons_of_mem _ hl)) x hmem

theorem zipWith_toSz_natCast (c s : List Nat) (hc : ∀ x ∈ c, x < size_t_mod) :
    (List.zipWith (fun a b => toSz a * b) (c.map fun (x : Nat) => (x : Int)) s).sum = dot c s := by
  unfold dot
  induction c generalizing s with
  | nil => simp
  | cons a as ih =>
    cases s with
    | nil => simp
    | cons b bs =>
      simp only [List.map_cons, List.zipWith_cons_cons, List.sum_cons]
      rw [ih bs fun x hx => hc x (List.mem_cons_of_mem _ hx),
        toSz_natCast a (hc a (List.mem_cons_self _ _))]

theorem zipWith_subSz_one (lens s : List Nat) (hl : ∀ l ∈ lens, 1 ≤ l ∧ l < size_t_mod) :
    (List.zipWith (fun l b => subSz l 1 * b) lens s).sum = dot (lens.map fun l => l - 1) s := by
  unfold dot
  induction lens generalizing s with
  | nil => simp
  | cons a as ih =>
    cases s with
    | nil => simp
    | cons b bs =>
      have ha := hl a (List.mem_cons_self _ _)
      have e : subSz a 1 = a - 1 := by
        simp only [subSz, size_t_mod] at *
        omega
      simp only [List.map_cons, List.zipWith_cons_cons, List.sum_cons]
      rw [ih bs fun x hx => hl x (List.mem_cons_of_mem _ hx), e]

theorem GetIndex_not_vectorized (d : TensorDescriptor) (cs : List Int)
    (hlayout : GetLayout_str d ≠ "CHWNc") (hsize : d.lens.length = d.strides.length)
    (harity : cs.length ≤ d.lens.length) (hv : IsVectorized d = false) :
    GetIndex d cs
      = .ok ((List.zipWith (fun c s => toSz c * s) cs d.strides).sum % size_t_mod) := by
  have hlen : cs.length ≤ d.strides.length := hsize ▸ harity
  have hgs : GetSize d = .ok d.lens.length := by simp only [GetSize, hsize, if_true]
  have := inner_product_coords cs d.strides 0 hlen (by norm_num)
  rw [Nat.zero_add] at this
  unfold GetIndex
  rw [if_neg hlayout, hv, hgs, if_pos (by simp), bind_ok, if_pos harity]
  exact this

theorem subSz_succ_one_le (n : Nat) : subSz (n + 1) 1 ≤ n := by
  simp only [subSz, size_t_mod]
  omega

theorem GetIndex_vectorized (d : TensorDescriptor) (v : Int) (cs : List Int)
    (hlayout : GetLayout_str d ≠ "CHWNc") (hsize : d.lens.length = d.strides.length)
    (harity : cs.length ≤ d.lens.length) (hv : IsVectorized d = true) :
    GetIndex d (v :: cs)
      = .ok ((toSz v + (List.zipWith (fun c s => toSz c * s) cs d.strides).sum)
          % size_t_mod) := by
  have hlen : cs.length ≤ d.strides.length := hsize ▸ harity
  have hgs : GetSize d = .ok d.lens.length := by simp only [GetSize, hsize, if_true]
  have := inner_product_coords cs d.strides (toSz v) hlen (toSz_lt v)
  have hs : subSz (v :: cs).length 1 ≤ d.lens.length :=
    le_trans (subSz_succ_one_le cs.length) harity
  unfold GetIndex
  rw [if_neg hlayout, hv, hgs, if_neg (by simp), bind_ok, if_pos hs]
  exact this

end miopen
namespace miopen
open TensorDescriptor miopenTensorLayout_t

theorem vector_length_pos (d : TensorDescriptor) :
    1 ≤ (CalculateVectorLength d).vector_length := by
  unfold CalculateVectorLength
  dsimp only
  split_ifs <;> norm_num

theorem setPacked_vector_length {d0 d : TensorDescriptor} (h : setPacked d0 = .ok d) :
    d.vector_length = d0.vector_length := by
  unfold setPacked at h
  cases hs : GetElementSize d0 with
  | error e => rw [hs] at h; cases h
  | ok size =>
    cases hp : GetElementSpace d0 with
    | error e => rw [hs, hp] at h; cases h
    | ok space =>
      rw [hs, hp] at h
      cases h
      rfl

theorem supplied_strides_facts {dflt : miopenTensorLayout_t} {c : CtorCall}
    {d : TensorDescriptor} (h : construct dflt c = .ok d) (hc : c.derivesStrides = false) :
    d.lens.length = d.strides.length ∧ 1 ≤ d.vector_length ∧
      d.packed = decide (elementCount d = elementSpace d) := by
  have key : ∀ d0 : TensorDescriptor, setPacked (CalculateVectorLength d0) = .ok d →
      d.lens.length = d.strides.length ∧ 1 ≤ d.vector_length ∧
        d.packed = decide (elementCount d = elementSpace d) := by
    intro d0 h0
    have hp := packed_of_setPacked h0
    refine ⟨GetElementSize_ok_length hp.1, ?_, hp.2.2⟩
    rw [setPacked_vector_length h0]
    exact vector_length_pos d0
  cases c with
  | lens t plens => cases hc
  | layout_lens t playout plens => cases hc
  | lens_strides t plens pstrides => exact key _ h
  | layout_lens_strides t layout_in lens_in strides_in => exact key _ h
  | int t plens size => cases hc
  | int_strides t plens pstrides size =>
    simp only [construct, ctor_int_strides, bind, Except.bind] at h
    split at h
    · cases h
    · split at h
      · cases h
      · split_ifs at h
        exact key _ h
  | layout_int t playout plens size => cases hc

theorem vector_length_le (d : TensorDescriptor) :
    (CalculateVectorLength d).vector_length ≤ 8 := by
  unfold CalculateVectorLength
  dsimp only
  split_ifs <;> norm_num

theorem supplied_strides_vector_length_le {dflt : miopenTensorLayout_t} {c : CtorCall}
    {d : TensorDescriptor} (h : construct dflt c = .ok d) (hc : c.derivesStrides = false) :
    d.vector_length ≤ 8 := by
  have key : ∀ d0 : TensorDescriptor, setPacked (CalculateVectorLength d0) = .ok d →
      d.vector_length ≤ 8 := by
    intro d0 h0
    rw [setPacked_vector_length h0]
    exact vector_length_le d0
  cases c with
  | lens t plens => cases hc
  | layout_lens t playout plens => cases hc
  | lens_strides t plens pstrides => exact key _ h
  | layout_lens_strides t layout_in lens_in strides_in => exact key _ h
  | int t plens size => cases hc
  | int_strides t plens pstrides size =>
    simp only [construct, ctor_int_strides, bind, Except.bind] at h
    split at h
    · cases h
    · split at h
      · cases h
      · split_ifs at h
        exact key _ h
  | layout_int t playout plens size => cases hc

/-- On a non-vectorized descriptor with one dimension and stride `1`, the offset that
`GetIndex` returns for a tuple of `int` coordinates is an `int` converted to
`std::size_t`: it is at most `INT_MAX` or at least `2 ^ 64 - 2 ^ 31`. -/
theorem GetIndex_one_dim_of_int (d : TensorDescriptor) (n : Nat)
    (hlayout : GetLayout_str d ≠ "CHWNc") (hv : IsVectorized d = false)
    (hlens : d.lens = [n]) (hstrides : d.strides = [1])
    (l : List Int) (hl : ∀ c ∈ l, IsInt c) (o : Nat) (h : GetIndex d l = .ok o) :
    o ≤ 2147483647 ∨ 18446744071562067968 ≤ o := by
  have hsize : d.lens.length = d.strides.length := by rw [hlens, hstrides]; rfl
  by_cases harity : l.length ≤ d.lens.length
  · rw [GetIndex_not_vectorized d l hlayout hsize harity hv, hstrides] at h
    have h' := Except.ok.inj h
    match l, hl, harity, h' with
    | [], _, _, h' =>
      simp only [List.zipWith_nil_left, List.sum_nil, Nat.zero_mod] at h'
      omega
    | [c], hl, _, h' =>
      have hc := hl c (List.mem_singleton_self _)
      have hlt := toSz_lt c
      simp only [List.zipWith_cons_cons, List.zipWith_nil_right, List.sum_cons, List.sum_nil,
        Nat.mul_one, Nat.add_zero] at h'
      rw [Nat.mod_eq_of_lt hlt] at h'
      simp only [toSz, IsInt, INT_MIN, INT_MAX, size_t_mod] at *
      omega
    | _ :: _ :: _, _, harity, _ =>
      rw [hlens] at harity
      simp at harity
  · have hgs : GetSize d = .ok d.lens.length := by simp only [GetSize, hsize, if_true]
    unfold GetIndex at h
    rw [if_neg hlayout, hv, hgs, if_pos (by simp), bind_ok, if_neg harity] at h
    cases h

/-- For a layout of the CHWNc family a call of `GetIndex` that returns has at least
the five coordinates `(v, n, c, h, w)`, and the result is the inner product of
`(c, h, w, n)` with the strides, started at `v`. -/
theorem GetIndex_CHWNc_ok (d : TensorDescriptor) (l : List Int) (o : Nat)
    (hlayout : GetLayout_str d = "CHWNc") (hsize : d.lens.length = d.strides.length)
    (h : GetIndex d l = .ok o) :
    ∃ v n c h w tl, l = v :: n :: c :: h :: w :: tl ∧
      inner_product (List.map toSz [c, h, w, n]) d.strides (toSz v) = .ok o := by
  have hgs : GetSize d = .ok d.lens.length := by simp only [GetSize, hsize, if_true]
  unfold GetIndex at h
  rw [if_pos hlayout, hgs, bind_ok] at h
  by_cases hs : subSz l.length 1 ≤ d.lens.length
  · rw [if_pos hs] at h
    match l, h with
    | [], h => cases h
    | [_], h => cases h
    | [_, _], h => cases h
    | [_, _, _], h => cases h
    | [_, _, _, _], h => cases h
    | v :: n :: c :: h0 :: w :: tl, h => exact ⟨v, n, c, h0, w, tl, rfl, h⟩
  · rw [if_neg hs] at h
    cases h

theorem toSz_of_nonneg (x : Int) (h0 : 0 ≤ x) (h : IsInt x) : toSz x = x.toNat := by
  simp only [toSz, IsInt, INT_MIN, INT_MAX, size_t_mod] at *
  omega

/-- On the CHWNc4 descriptor with the lengths `[1, 1, 1, 1, 2]` and the strides
`[100, 100, 100, 100, 4]`, `GetIndex` of `(v, n, c, h, w, ...)` is
`v + 100 * (c + h + w + n)`, which is never `4` for `v < 4` and non-negative
coordinates. -/
theorem GetIndex_CHWNc_five_dim_unreached (v : Int) (c : List Int)
    (hv : IsInt v) (hv0 : 0 ≤ v) (hv4 : v < 4) (hc : ∀ x ∈ c, IsInt x ∧ 0 ≤ x)
    (hidx : GetIndex ⟨[1, 1, 1, 1, 2], [100, 100, 100, 100, 4], true, .miopenFloat,
      miopenTensorCHWNc4, 4⟩ (v :: c) = .ok 4) : False := by
  obtain ⟨v', n, c0, h, w, tl, hl, hip⟩ := GetIndex_CHWNc_ok
    ⟨[1, 1, 1, 1, 2], [100, 100, 100, 100, 4], true, .miopenFloat, miopenTensorCHWNc4, 4⟩
    (v :: c) 4 (by decide) rfl hidx
  rw [List.cons.injEq] at hl
  obtain ⟨rfl, rfl⟩ := hl
  have hn := hc n (by simp)
  have hc0 := hc c0 (by simp)
  have hh := hc h (by simp)
  have hw := hc w (by simp)
  have ev := toSz_of_nonneg v hv0 hv
  have en := toSz_of_nonneg n hn.2 hn.1
  have ec := toSz_of_nonneg c0 hc0.2 hc0.1
  have eh := toSz_of_nonneg h hh.2 hh.1
  have ew := toSz_of_nonneg w hw.2 hw.1
  simp only [IsInt, INT_MIN, INT_MAX] at hv hn hc0 hh hw
  have bv : v.toNat < 4 := by omega
  have bn : n.toNat ≤ 2147483647 := by omega
  have bc : c0.toNat ≤ 2147483647 := by omega
  have bh : h.toNat ≤ 2147483647 := by omega
  have bw : w.toNat ≤ 2147483647 := by omega
  have hip' : inner_product (List.map toSz [c0, h, w, n]) [100, 100, 100, 100, 4]
      (toSz v) = .ok 4 := hip
  rw [inner_product_coords [c0, h, w, n] [100, 100, 100, 100, 4] (toSz v)
    (by simp) (toSz_lt _)] at hip'
  have hsum := Except.ok.inj hip'
  simp only [List.zipWith_cons_cons, List.zipWith_nil_left, List.sum_cons, List.sum_nil,
    ev, en, ec, eh, ew, size_t_mod] at hsum
  generalize v.toNat = a at hsum bv
  generalize n.toNat = b at hsum bn
  generalize c0.toNat = e at hsum bc
  generalize h.toNat = f at hsum bh
  generalize w.toNat = g at hsum bw
  clear hidx hip hip' hc hv hv0 hv4 hn hc0 hh hw ev en ec eh ew
  have hlt : a + (e * 100 + (f * 100 + (g * 100 + (b * 100 + 0)))) < 18446744073709551616 := by
    clear hsum
    omega
  rw [Nat.mod_eq_of_lt hlt] at hsum
  omega

/-- On the descriptor with the length `[3]` and the stride `[2 ^ 63 + 1]` the offsets of
the in-bounds tuples are `0`, `2 ^ 63 + 1` and `2`, never `1`. -/
theorem GetIndex_wrapped_stride_unreached (c : List Int) (hc : InBounds [3] c)
    (hidx : GetIndex ⟨[3], [9223372036854775809], true, .miopenFloat, miopenTensorNCHW, 1⟩ c
      = .ok 1) : False := by
  unfold InBounds at hc
  cases hc with
  | cons h0 hc =>
    cases hc
    rename_i c0
    rw [GetIndex_not_vectorized
      ⟨[3], [9223372036854775809], true, .miopenFloat, miopenTensorNCHW, 1⟩
      [c0] (by decide) rfl (by simp) rfl] at hidx
    have e0 := Int.toNat_of_nonneg h0.2.1
    have b0 : c0.toNat < 3 := by omega
    rw [← e0] at hidx
    have hidx' := Except.ok.inj hidx
    simp only [List.zipWith_cons_cons, List.zipWith_nil_right, List.sum_cons, List.sum_nil,
      toSz_natCast _ (lt_trans b0 (by norm_num)), size_t_mod] at hidx'
    generalize c0.toNat = x at hidx' b0
    clear hidx e0 h0
    interval_cases x <;> simp at hidx'

theorem GetIndex_natCast_not_vectorized (d : TensorDescriptor) (c : List Nat)
    (hlayout : GetLayout_str d ≠ "CHWNc") (hsize : d.lens.length = d.strides.length)
    (hv : IsVectorized d = false) (hc : c ∈ tuples d.lens)
    (hl : ∀ l ∈ d.lens, l ≤ size_t_mod) (hdot : dot c d.strides < size_t_mod) :
    GetIndex d (c.map fun (x : Nat) => (x : Int)) = .ok (dot c d.strides) := by
  rw [GetIndex_not_vectorized d _ hlayout hsize
      (by rw [List.length_map, length_of_mem_tuples _ _ hc]) hv,
    zipWith_toSz_natCast _ _ (lt_of_mem_tuples _ _ _ hc hl), Nat.mod_eq_of_lt hdot]

theorem GetIndex_natCast_vectorized (d : TensorDescriptor) (v : Nat) (c : List Nat)
    (hlayout : GetLayout_str d ≠ "CHWNc") (hsize : d.lens.length = d.strides.length)
    (hv : IsVectorized d = true) (hc : c ∈ tuples d.lens)
    (hl : ∀ l ∈ d.lens, l ≤ size_t_mod) (hdot : v + dot c d.strides < size_t_mod) :
    GetIndex d ((v : Int) :: c.map fun (x : Nat) => (x : Int)) = .ok (v + dot c d.strides) := by
  have hlen : (c.map fun (x : Nat) => (x : Int)).length = d.lens.length := by
    rw [List.length_map, length_of_mem_tuples _ _ hc]
  rw [GetIndex_vectorized d _ _ hlayout hsize (le_of_eq hlen) hv,
    zipWith_toSz_natCast _ _ (lt_of_mem_tuples _ _ _ hc hl),
    toSz_natCast v (by omega), Nat.mod_eq_of_lt hdot]

/-- For a layout of the CHWNc family `GetIndex` of `(v, n, c, h, w)` is `v` plus the
inner product of `(c, h, w, n)` with the strides. -/
theorem GetIndex_natCast_CHWNc (d : TensorDescriptor) (v n c h w : Nat)
    (hlayout : GetLayout_str d = "CHWNc") (hsize : d.lens.length = d.strides.length)
    (hc : [c, h, w, n] ∈ tuples d.lens)
    (hl : ∀ l ∈ d.lens, l ≤ size_t_mod) (hdot : v + dot [c, h, w, n] d.strides < size_t_mod) :
    GetIndex d [(v : Int), (n : Int), (c : Int), (h : Int), (w : Int)]
      = .ok (v + dot [c, h, w, n] d.strides) := by
  have hlen : d.lens.length = 4 := (length_of_mem_tuples _ _ hc).symm
  have hgs : GetSize d = .ok d.lens.length := by simp only [GetSize, hsize, if_true]
  have hs : subSz [(v : Int), (n : Int), (c : Int), (h : Int), (w : Int)].length 1
      ≤ d.lens.length := by
    rw [hlen]
    exact (subSz_succ_one 4 (by norm_num)).le
  have hip := inner_product_coords [(c : Int), (h : Int), (w : Int), (n : Int)] d.strides
    (toSz (v : Int)) (by rw [← hsize, hlen]; rfl) (toSz_lt _)
  have hsum := zipWith_toSz_natCast [c, h, w, n] d.strides (lt_of_mem_tuples _ _ _ hc hl)
  have hip2 : inner_product (List.map toSz [(c : Int), (h : Int), (w : Int), (n : Int)])
      d.strides (toSz (v : Int)) = .ok (v + dot [c, h, w, n] d.strides) := by
    rw [hip]
    rw [show [(c : Int), (h : Int), (w : Int), (n : Int)]
        = [c, h, w, n].map fun (x : Nat) => (x : Int) from rfl, hsum,
      toSz_natCast v (by omega), Nat.mod_eq_of_lt hdot]
  unfold GetIndex
  rw [if_pos hlayout, hgs, bind_ok, if_pos hs]
  exact hip2

end miopen

namespace miopen
open TensorDescriptor miopenTensorLayout_t

theorem length_strides_of_derived {d0 d : TensorDescriptor}
    (h : CalculateStrides d0 = .ok d) : d.strides.length = d.lens.length := by
  rw [(CalculateStrides_shape h).2.2, length_derivedStrides]

theorem length_strides_of_setPacked {d0 d : TensorDescriptor}
    (h : setPacked (CalculateVectorLength d0) = .ok d) : d.strides.length = d.lens.length :=
  (GetElementSize_ok_length (packed_of_setPacked h).1).symm

theorem setPacked_arity_mismatch (d0 : TensorDescriptor)
    (h : d0.lens.length ≠ d0.strides.length) :
    setPacked (CalculateVectorLength d0) = .error .assertion := by
  have h' : ¬ (CalculateVectorLength d0).lens.length = (CalculateVectorLength d0).strides.length :=
    h
  unfold setPacked GetElementSize
  rw [if_neg h']
  rfl

/-- Claim C19. Every descriptor that a constructor taking lengths returns has one
stride per length. The constructors that are given lengths and strides of different
arity return no descriptor: the assertion in `GetElementSize` fails. -/
theorem C19_one_stride_per_length (dflt : miopenTensorLayout_t) (c : CtorCall) :
    (∀ d, construct dflt c = .ok d → d.strides.length = d.lens.length) ∧
    (∀ t playout plens pstrides, plens.length ≠ pstrides.length →
      (c = .lens_strides t plens pstrides ∨
        c = .layout_lens_strides t playout plens pstrides) →
      construct dflt c = .error .assertion) := by
  constructor
  · intro d h
    cases c with
    | lens t plens => exact length_strides_of_derived h
    | layout_lens t playout plens => exact length_strides_of_derived h
    | lens_strides t plens pstrides => exact length_strides_of_setPacked h
    | layout_lens_strides t layout_in lens_in strides_in => exact length_strides_of_setPacked h
    | int t plens size =>
      simp only [construct, ctor_int, bind, Except.bind] at h
      split at h
      · cases h
      · split_ifs at h
        exact length_strides_of_derived h
    | int_strides t plens pstrides size =>
      simp only [construct, ctor_int_strides, bind, Except.bind] at h
      split at h
      · cases h
      · split at h
        · cases h
        · split_ifs at h
          exact length_strides_of_setPacked h
    | layout_int t playout plens size =>
      simp only [construct, ctor_layout_int, bind, Except.bind] at h
      split at h
      · cases h
      · split_ifs at h
        exact length_strides_of_derived h
  · rintro t playout plens pstrides hne (rfl | rfl)
    · exact setPacked_arity_mismatch _ hne
    · exact setPacked_arity_mismatch _ hne

/-- C19 at lengths `[2, 3]` with the strides `[3, 1]` (returned, two strides) and with
the strides `[1]` (assertion failure). -/
theorem C19_one_stride_per_length_witness :
    construct miopenTensorNCHW (.lens_strides .miopenFloat [2, 3] [3, 1])
      = .ok ⟨[2, 3], [3, 1], true, .miopenFloat, miopenTensorNCHW, 1⟩ ∧
    [3, 1].length = [2, 3].length ∧
    construct miopenTensorNCHW (.lens_strides .miopenFloat [2, 3] [1]) = .error .assertion :=
  ⟨rfl,
   (C19_one_stride_per_length miopenTensorNCHW (.lens_strides .miopenFloat [2, 3] [3, 1])).1
      ⟨[2, 3], [3, 1], true, .miopenFloat, miopenTensorNCHW, 1⟩ rfl,
   (C19_one_stride_per_length miopenTensorNCHW (.lens_strides .miopenFloat [2, 3] [1])).2
      .miopenFloat miopenTensorNCHW [2, 3] [1] (by decide) (Or.inl rfl)⟩

end miopen

namespace miopen
open TensorDescriptor miopenTensorLayout_t

theorem tensor_layout_to_strides_NCHW (n c h w : Nat) :
    tensor_layout_to_strides [n, c, h, w] "NCHW" "NCHW"
      = .ok [mulSz (mulSz (mulSz 1 c) h) w, mulSz (mulSz 1 h) w, mulSz 1 w, 1] := by
  rfl

theorem tensor_layout_to_strides_NHWC (n c h w : Nat) :
    tensor_layout_to_strides [n, c, h, w] "NCHW" "NHWC"
      = .ok [mulSz (mulSz (mulSz 1 h) w) c, 1, mulSz (mulSz 1 w) c, mulSz 1 c] := by
  rfl

/-- With the strides derivation modelled from the spec: a tensor of four dimensions
with the strides of the ordering NHWC and a channel length greater than `1` fails the
test against the ordering NCHW. -/
theorem NHWC_strides_fail_NCHW (n c h w : Nat) (hc : 1 < c) (hfit : c < size_t_mod)
    (nhwc : List Nat) (hstrides : tensor_layout_to_strides [n, c, h, w] "NCHW" "NHWC" = .ok nhwc)
    (packed : Bool) (t : miopenDataType_t) (layout : miopenTensorLayout_t) (vl : Nat) :
    IsPossibleLayout tensor_layout_to_strides ⟨[n, c, h, w], nhwc, packed, t, layout, vl⟩
      "NCHW" "NCHW" = .ok false := by
  rw [tensor_layout_to_strides_NHWC] at hstrides
  have hs := Except.ok.inj hstrides
  subst hs
  have hlast : mulSz 1 c = c := by
    rw [mulSz, Nat.one_mul, Nat.mod_eq_of_lt hfit]
  have hne : [mulSz (mulSz (mulSz 1 c) h) w, mulSz (mulSz 1 h) w, mulSz 1 w, 1]
      ≠ [mulSz (mulSz (mulSz 1 h) w) c, 1, mulSz (mulSz 1 w) c, mulSz 1 c] := by
    intro he
    simp only [List.cons.injEq] at he
    have := he.2.2.2.1
    rw [hlast] at this
    omega
  unfold IsPossibleLayout
  rw [tensor_layout_to_strides_NCHW, bind_ok, decide_eq_false hne]
  rfl

/-- Claim C20. `IsPossibleLayout(labels, layout)` returns `true` when the strides that
`tensor_layout_to_strides` derives from the lengths of the descriptor are the stored
strides, in arity and element for element, and `false` when they are not; when the
derivation throws, so does the test. The lengths and strides of the descriptor are the
same after the call. -/
theorem C20_IsPossibleLayout
    (derive : List Nat → String → String → Except Failure (List Nat))
    (d : TensorDescriptor) (labels layout : String) :
    (∀ derived_strides, derive d.lens labels layout = .ok derived_strides →
      (derived_strides = d.strides → IsPossibleLayout derive d labels layout = .ok true) ∧
      (derived_strides ≠ d.strides → IsPossibleLayout derive d labels layout = .ok false)) ∧
    (∀ e, derive d.lens labels layout = .error e →
      IsPossibleLayout derive d labels layout = .error e) ∧
    (IsPossibleLayout_call derive d labels layout).1.lens = d.lens ∧
    (IsPossibleLayout_call derive d labels layout).1.strides = d.strides ∧
    (IsPossibleLayout_call derive d labels layout).2 = IsPossibleLayout derive d labels layout := by
  refine ⟨fun ds h => ⟨fun he => ?_, fun hne => ?_⟩, fun e h => ?_, rfl, rfl, rfl⟩
  · unfold IsPossibleLayout
    rw [h, bind_ok]
    simp [he, pure, Except.pure]
  · unfold IsPossibleLayout
    rw [h, bind_ok]
    simp [hne, pure, Except.pure]
  · unfold IsPossibleLayout
    rw [h]
    rfl

/-- C20 at the lengths `[2, 3, 4, 5]` with the strides of the ordering NHWC,
`[60, 1, 15, 3]`: the test fails against `NCHW` and passes against `NHWC`. -/
theorem C20_IsPossibleLayout_witness :
    tensor_layout_to_strides [2, 3, 4, 5] "NCHW" "NCHW" = .ok [60, 20, 5, 1] ∧
    tensor_layout_to_strides [2, 3, 4, 5] "NCHW" "NHWC" = .ok [60, 1, 15, 3] ∧
    IsPossibleLayout tensor_layout_to_strides
      ⟨[2, 3, 4, 5], [60, 1, 15, 3], true, .miopenFloat, miopenTensorNHWC, 1⟩ "NCHW" "NCHW"
      = .ok false ∧
    IsPossibleLayout tensor_layout_to_strides
      ⟨[2, 3, 4, 5], [60, 1, 15, 3], true, .miopenFloat, miopenTensorNHWC, 1⟩ "NCHW" "NHWC"
      = .ok true :=
  ⟨rfl, rfl,
   ((C20_IsPossibleLayout tensor_layout_to_strides
      ⟨[2, 3, 4, 5], [60, 1, 15, 3], true, .miopenFloat, miopenTensorNHWC, 1⟩ "NCHW" "NCHW").1
      [60, 20, 5, 1] rfl).2 (by decide),
   ((C20_IsPossibleLayout tensor_layout_to_strides
      ⟨[2, 3, 4, 5], [60, 1, 15, 3], true, .miopenFloat, miopenTensorNHWC, 1⟩ "NCHW" "NHWC").1
      [60, 1, 15, 3] rfl).1 rfl⟩

end miopen

namespace miopen
open TensorDescriptor miopenTensorLayout_t

theorem mem_tuples_cons (l : Nat) (ls t : List Nat) :
    t ∈ tuples (l :: ls) ↔ ∃ a b, a < l ∧ b ∈ tuples ls ∧ t = a :: b := by
  simp only [tuples, Finset.mem_image, Finset.mem_product, Finset.mem_range, Prod.exists]
  constructor
  · rintro ⟨a, b, ⟨ha, hb⟩, rfl⟩
    exact ⟨a, b, ha, hb, rfl⟩
  · rintro ⟨a, b, ha, hb, rfl⟩
    exact ⟨a, b, ⟨ha, hb⟩, rfl⟩

theorem exists_tuple_of_inBounds (lens : List Nat) (c : List Int) (h : InBounds lens c) :
    ∃ t, t ∈ tuples lens ∧ c = t.map fun (x : Nat) => (x : Int) := by
  unfold InBounds at h
  induction h with
  | nil => exact ⟨[], by simp [tuples], rfl⟩
  | @cons a b as bs hab _ ih =>
    obtain ⟨t, ht, rfl⟩ := ih
    refine ⟨a.toNat :: t, (mem_tuples_cons _ _ _).2 ⟨a.toNat, t, by omega, ht, rfl⟩, ?_⟩
    rw [List.map_cons, Int.toNat_of_nonneg hab.2.1]

theorem derivedStrides_one_cons (x : Nat) (t : List Nat) (h : t.prod < size_t_mod) :
    derivedStrides 1 (x :: t) = t.prod :: derivedStrides 1 t := by
  cases t with
  | nil => rfl
  | cons y ys =>
    rw [derivedStrides, Nat.mul_one, Nat.mod_eq_of_lt h]

theorem prod_pos_of_pos (lens : List Nat) (hpos : ∀ l ∈ lens, 1 ≤ l) : 1 ≤ lens.prod := by
  induction lens with
  | nil => simp
  | cons y ys ih =>
    rw [List.prod_cons]
    exact Nat.mul_pos (hpos y (List.mem_cons_self _ _))
      (ih fun l hl => hpos l (List.mem_cons_of_mem _ hl))

theorem prod_tail_lt (x : Nat) (t : List Nat) (hx : 1 ≤ x)
    (hprod : (x :: t).prod < size_t_mod) : t.prod < size_t_mod := by
  rw [List.prod_cons] at hprod
  exact lt_of_le_of_lt (Nat.le_mul_of_pos_left _ hx) hprod

/-- With derived strides the offset of an in-bounds tuple is below the product of the
lengths. -/
theorem radix_lt (lens : List Nat) (hpos : ∀ l ∈ lens, 1 ≤ l) (hprod : lens.prod < size_t_mod)
    (t : List Nat) (ht : t ∈ tuples lens) : dot t (derivedStrides 1 lens) < lens.prod := by
  induction lens generalizing t with
  | nil =>
    simp only [tuples, Finset.mem_singleton] at ht
    subst ht
    simp [dot]
  | cons l ls ih =>
    obtain ⟨a, b, ha, hb, rfl⟩ := (mem_tuples_cons _ _ _).1 ht
    have hl : 1 ≤ l := hpos l (List.mem_cons_self _ _)
    have htail := prod_tail_lt l ls hl hprod
    have := ih (fun x hx => hpos x (List.mem_cons_of_mem _ hx)) htail b hb
    rw [derivedStrides_one_cons l ls htail, List.prod_cons]
    simp only [dot, List.zipWith_cons_cons, List.sum_cons] at this ⊢
    have h1 : a * ls.prod + ls.prod ≤ l * ls.prod := by
      have := Nat.mul_le_mul_right ls.prod (Nat.succ_le_of_lt ha)
      rw [Nat.succ_mul] at this
      exact this
    omega

/-- With derived strides distinct in-bounds tuples have distinct offsets. -/
theorem radix_injective (lens : List Nat) (hpos : ∀ l ∈ lens, 1 ≤ l)
    (hprod : lens.prod < size_t_mod) (t t' : List Nat) (ht : t ∈ tuples lens)
    (ht' : t' ∈ tuples lens)
    (h : dot t (derivedStrides 1 lens) = dot t' (derivedStrides 1 lens)) : t = t' := by
  induction lens generalizing t t' with
  | nil =>
    simp only [tuples, Finset.mem_singleton] at ht ht'
    rw [ht, ht']
  | cons l ls ih =>
    obtain ⟨a, b, ha, hb, rfl⟩ := (mem_tuples_cons _ _ _).1 ht
    obtain ⟨a', b', ha', hb', rfl⟩ := (mem_tuples_cons _ _ _).1 ht'
    have hl : 1 ≤ l := hpos l (List.mem_cons_self _ _)
    have htail := prod_tail_lt l ls hl hprod
    have hpos' : ∀ x ∈ ls, 1 ≤ x := fun x hx => hpos x (List.mem_cons_of_mem _ hx)
    have r := radix_lt ls hpos' htail b hb
    have r' := radix_lt ls hpos' htail b' hb'
    rw [derivedStrides_one_cons l ls htail] at h
    simp only [dot, List.zipWith_cons_cons, List.sum_cons] at h r r'
    have hP : 0 < ls.prod := prod_pos_of_pos ls hpos'
    have ea : a = a' := by
      have h1 := congrArg (fun n => n / ls.prod) h
      simp only at h1
      rw [Nat.add_comm, Nat.add_mul_div_right _ _ hP, Nat.div_eq_of_lt r, Nat.add_comm (a' * _),
        Nat.add_mul_div_right _ _ hP, Nat.div_eq_of_lt r'] at h1
      omega
    subst ea
    have eb : b = b' := ih hpos' htail b b' hb hb' (by simp only [dot]; omega)
    rw [eb]

/-- With derived strides every offset below the product of the lengths is the offset of
an in-bounds tuple. -/
theorem radix_surjective (lens : List Nat) (hpos : ∀ l ∈ lens, 1 ≤ l)
    (hprod : lens.prod < size_t_mod) (o : Nat) (ho : o < lens.prod) :
    ∃ t, t ∈ tuples lens ∧ dot t (derivedStrides 1 lens) = o := by
  induction lens generalizing o with
  | nil =>
    refine ⟨[], by simp [tuples], ?_⟩
    simp only [List.prod_nil] at ho
    simp only [dot, derivedStrides, List.zipWith_nil_left, List.sum_nil]
    omega
  | cons l ls ih =>
    have hl : 1 ≤ l := hpos l (List.mem_cons_self _ _)
    have htail := prod_tail_lt l ls hl hprod
    have hpos' : ∀ x ∈ ls, 1 ≤ x := fun x hx => hpos x (List.mem_cons_of_mem _ hx)
    have hP : 0 < ls.prod := prod_pos_of_pos ls hpos'
    obtain ⟨b, hb, hdot⟩ := ih hpos' htail (o % ls.prod) (Nat.mod_lt _ hP)
    rw [List.prod_cons] at ho
    have ha : o / ls.prod < l := by
      rw [Nat.div_lt_iff_lt_mul hP]
      exact ho
    refine ⟨(o / ls.prod) :: b, (mem_tuples_cons _ _ _).2 ⟨_, b, ha, hb, rfl⟩, ?_⟩
    rw [derivedStrides_one_cons l ls htail]
    simp only [dot, List.zipWith_cons_cons, List.sum_cons] at hdot ⊢
    rw [hdot]
    exact Nat.div_add_mod' o ls.prod

end miopen
namespace miopen
open TensorDescriptor miopenTensorLayout_t

theorem pred_mem_tuples (lens : List Nat) (hpos : ∀ l ∈ lens, 1 ≤ l) :
    (lens.map fun l => l - 1) ∈ tuples lens := by
  induction lens with
  | nil => simp [tuples]
  | cons l ls ih =>
    have hl : 1 ≤ l := hpos l (List.mem_cons_self _ _)
    exact (mem_tuples_cons _ _ _).2
      ⟨l - 1, _, by omega, ih fun x hx => hpos x (List.mem_cons_of_mem _ hx), rfl⟩

/-- The layouts of the CHWNc family, where `GetIndex` takes `(v, n, c, h, w)` and
pairs `c, h, w, n` with the strides in this order: with four dimensions and every
coordinate below the length of the axis it indexes, the offset is below the element
space. -/
theorem GetIndex_CHWNc_below_space (d : TensorDescriptor) (v n c h w : Nat)
    (l0 l1 l2 l3 s0 s1 s2 s3 : Nat)
    (hlayout : d.tensorLayout = miopenTensorCHWNc4 ∨ d.tensorLayout = miopenTensorCHWNc8)
    (hlens : d.lens = [l0, l1, l2, l3]) (hstrides : d.strides = [s0, s1, s2, s3])
    (hlM : ∀ l ∈ d.lens, 1 ≤ l ∧ l < size_t_mod)
    (hspace : dot (d.lens.map fun l => l - 1) d.strides + d.vector_length < size_t_mod)
    (hv : v < d.vector_length) (hc : c < l0) (hh : h < l1) (hw : w < l2) (hn : n < l3) :
    GetElementSpace d = .ok (elementSpace d) ∧
    GetIndex d [(v : Int), (n : Int), (c : Int), (h : Int), (w : Int)]
      = .ok (v + (c * s0 + h * s1 + w * s2 + n * s3)) ∧
    v + (c * s0 + h * s1 + w * s2 + n * s3) < elementSpace d := by
  have hsize : d.lens.length = d.strides.length := by rw [hlens, hstrides]; rfl
  have hspace' : elementSpace d
      = dot (d.lens.map fun l => l - 1) d.strides + d.vector_length := by
    unfold elementSpace
    rw [zipWith_subSz_one _ _ hlM]
    exact Nat.mod_eq_of_lt hspace
  have hdot : dot (d.lens.map fun l => l - 1) d.strides
      = (l0 - 1) * s0 + ((l1 - 1) * s1 + ((l2 - 1) * s2 + ((l3 - 1) * s3 + 0))) := by
    rw [hlens, hstrides]
    rfl
  have b0 := Nat.mul_le_mul_right s0 (Nat.le_sub_one_of_lt hc)
  have b1 := Nat.mul_le_mul_right s1 (Nat.le_sub_one_of_lt hh)
  have b2 := Nat.mul_le_mul_right s2 (Nat.le_sub_one_of_lt hw)
  have b3 := Nat.mul_le_mul_right s3 (Nat.le_sub_one_of_lt hn)
  have hlt : v + (c * s0 + h * s1 + w * s2 + n * s3) < elementSpace d := by
    rw [hspace', hdot]
    omega
  have hltM : v + (c * s0 + h * s1 + w * s2 + n * s3) < size_t_mod := by
    rw [hspace'] at hlt
    exact lt_trans hlt hspace
  have e0 := hlM l0 (by rw [hlens]; simp)
  have e1 := hlM l1 (by rw [hlens]; simp)
  have e2 := hlM l2 (by rw [hlens]; simp)
  have e3 := hlM l3 (by rw [hlens]; simp)
  refine ⟨GetElementSpace_eq d hsize, ?_, hlt⟩
  have hgs : GetSize d = .ok 4 := by simp [GetSize, hlens, hstrides]
  have hs : subSz [(v : Int), (n : Int), (c : Int), (h : Int), (w : Int)].length 1 ≤ 4 :=
    (subSz_succ_one 4 (by norm_num)).le
  have hip := inner_product_coords [(c : Int), (h : Int), (w : Int), (n : Int)]
    [s0, s1, s2, s3] (toSz (v : Int)) (by simp) (toSz_lt _)
  have hsum : (List.zipWith (fun c s => toSz c * s)
      [(c : Int), (h : Int), (w : Int), (n : Int)] [s0, s1, s2, s3]).sum
      = c * s0 + h * s1 + w * s2 + n * s3 := by
    simp only [List.zipWith_cons_cons, List.zipWith_nil_right, List.sum_cons, List.sum_nil,
      toSz_natCast c (by omega), toSz_natCast h (by omega), toSz_natCast w (by omega),
      toSz_natCast n (by omega)]
    omega
  have hip2 : inner_product (List.map toSz [(c : Int), (h : Int), (w : Int), (n : Int)])
      [s0, s1, s2, s3] (toSz (v : Int)) = .ok (v + (c * s0 + h * s1 + w * s2 + n * s3)) := by
    rw [hip, hsum, toSz_natCast v (by omega), Nat.mod_eq_of_lt hltM]
  unfold GetIndex
  rw [if_pos (GetLayout_str_CHWNc d hlayout), hgs, bind_ok, if_pos hs, hstrides]
  exact hip2

theorem four_of_mem_tuples (lens t : List Nat) (ht : t ∈ tuples lens)
    (hlen : t.length = 4) : ∃ a b e f : Nat, t = [a, b, e, f] := by
  match t, hlen with
  | [a, b, e, f], _ => exact ⟨a, b, e, f, rfl⟩

theorem GetLayout_str_of_nonvec (d : TensorDescriptor) (h : NonVectorized d.tensorLayout) :
    GetLayout_str d ≠ "CHWNc" := by
  obtain ⟨_, _, h3, h4⟩ := h
  unfold GetLayout_str
  cases hl : d.tensorLayout <;> first
    | exact absurd hl h3
    | exact absurd hl h4
    | decide
    | exact (by decide : ("Unknown tensor layout" : String) ≠ "CHWNc")

theorem derived_nonvec_eq {d0 d : TensorDescriptor}
    (hd : CalculateStrides (CalculateVectorLength d0) = .ok d)
    (hnv : NonVectorized d0.tensorLayout) :
    d = ⟨d0.lens, derivedStrides 1 d0.lens, d0.packed, d0.type, d0.tensorLayout, 1⟩ := by
  have hvl := vector_length_nonvec d0 hnv
  by_cases hne : d0.lens = []
  · have hne' : (CalculateVectorLength d0).lens = [] := hne
    rw [CalculateStrides_nil (CalculateVectorLength d0) hne'] at hd
    cases hd
    show TensorDescriptor.mk d0.lens [] d0.packed d0.type d0.tensorLayout
      (CalculateVectorLength d0).vector_length = _
    rw [hvl, hne]
    rfl
  · have hne' : (CalculateVectorLength d0).lens ≠ [] := hne
    rw [CalculateStrides_eq (CalculateVectorLength d0) d0.lens hne'
      (divideChannel_nonvec d0 hnv)] at hd
    cases hd
    show TensorDescriptor.mk d0.lens
      (derivedStrides (CalculateVectorLength d0).vector_length d0.lens) d0.packed d0.type
      d0.tensorLayout (CalculateVectorLength d0).vector_length = _
    rw [hvl]

end miopen

namespace miopen
open TensorDescriptor miopenTensorLayout_t

/-- Claim C23. `from_json` writes the four members it reads (lengths, strides, packed
flag, element type) and nothing else: when the four reads succeed it returns the target
with exactly these four members replaced, and whenever it returns, the layout and the
vector length are those of the target. So a descriptor restored from `to_json d` has
the layout and the vector length of the target, whatever those of `d` are. -/
theorem C23_from_json_frame (V : EnumValues) (j : Json) (d target : TensorDescriptor) :
    (∀ lens strides packed type,
      (j.at "lengths").bind Json.get_to_vector = .ok lens →
      (j.at "strides").bind Json.get_to_vector = .ok strides →
      (j.at "packed").bind Json.get_to_bool = .ok packed →
      (j.at "type").bind (Json.get_to_enum V) = .ok type →
      from_json V j target
        = .ok ⟨lens, strides, packed, type, target.tensorLayout, target.vector_length⟩) ∧
    (∀ r, from_json V j target = .ok r →
      r.tensorLayout = target.tensorLayout ∧ r.vector_length = target.vector_length ∧
      (j.at "lengths").bind Json.get_to_vector = .ok r.lens ∧
      (j.at "strides").bind Json.get_to_vector = .ok r.strides ∧
      (j.at "packed").bind Json.get_to_bool = .ok r.packed ∧
      (j.at "type").bind (Json.get_to_enum V) = .ok r.type) ∧
    from_json V (to_json V d) target
      = .ok ⟨d.lens, d.strides, d.packed, d.type, target.tensorLayout,
          target.vector_length⟩ := by
  refine ⟨?_, ?_, from_json_to_json V d target⟩
  · intro lens strides packed type h1 h2 h3 h4
    unfold from_json
    cases a1 : j.at "lengths" with
    | error e => rw [a1] at h1; cases h1
    | ok v1 =>
      cases a2 : j.at "strides" with
      | error e => rw [a2] at h2; cases h2
      | ok v2 =>
        cases a3 : j.at "packed" with
        | error e => rw [a3] at h3; cases h3
        | ok v3 =>
          cases a4 : j.at "type" with
          | error e => rw [a4] at h4; cases h4
          | ok v4 =>
            rw [a1] at h1; rw [a2] at h2; rw [a3] at h3; rw [a4] at h4
            have g1 : Json.get_to_vector v1 = .ok lens := h1
            have g2 : Json.get_to_vector v2 = .ok strides := h2
            have g3 : Json.get_to_bool v3 = .ok packed := h3
            have g4 : Json.get_to_enum V v4 = .ok type := h4
            simp only [bind_ok, g1, g2, g3, g4, pure, Except.pure]
  · intro r h
    unfold from_json at h
    cases a1 : j.at "lengths" with
    | error e => rw [a1] at h; cases h
    | ok v1 =>
      cases g1 : Json.get_to_vector v1 with
      | error e => rw [a1, bind_ok, g1] at h; cases h
      | ok lens =>
        cases a2 : j.at "strides" with
        | error e => rw [a1, bind_ok, g1, bind_ok, a2] at h; cases h
        | ok v2 =>
          cases g2 : Json.get_to_vector v2 with
          | error e => rw [a1, bind_ok, g1, bind_ok, a2, bind_ok, g2] at h; cases h
          | ok strides =>
            cases a3 : j.at "packed" with
            | error e => rw [a1, bind_ok, g1, bind_ok, a2, bind_ok, g2, bind_ok, a3] at h; cases h
            | ok v3 =>
              cases g3 : Json.get_to_bool v3 with
              | error e =>
                rw [a1, bind_ok, g1, bind_ok, a2, bind_ok, g2, bind_ok, a3, bind_ok, g3] at h
                cases h
              | ok packed =>
                cases a4 : j.at "type" with
                | error e =>
                  rw [a1, bind_ok, g1, bind_ok, a2, bind_ok, g2, bind_ok, a3, bind_ok, g3,
                    bind_ok, a4] at h
                  cases h
                | ok v4 =>
                  cases g4 : Json.get_to_enum V v4 with
                  | error e =>
                    rw [a1, bind_ok, g1, bind_ok, a2, bind_ok, g2, bind_ok, a3, bind_ok, g3,
                      bind_ok, a4, bind_ok, g4] at h
                    cases h
                  | ok type =>
                    rw [a1, bind_ok, g1, bind_ok, a2, bind_ok, g2, bind_ok, a3, bind_ok, g3,
                      bind_ok, a4, bind_ok, g4, bind_ok] at h
                    cases h
                    exact ⟨rfl, rfl, g1, g2, g3, g4⟩

/-- C23 at the NCHWc4 descriptor with lengths `[2, 2, 4, 5]`, restored into a
default-constructed target: the result has the layout NCHW and the vector length `1`
of the target. -/
theorem C23_from_json_frame_witness :
    from_json fixtureEnumValues
        (to_json fixtureEnumValues
          ⟨[2, 2, 4, 5], [160, 80, 20, 4], true, .miopenHalf, miopenTensorNCHWc4, 4⟩)
        ⟨[], [], true, .miopenFloat, miopenTensorNCHW, 1⟩
      = .ok ⟨[2, 2, 4, 5], [160, 80, 20, 4], true, .miopenHalf, miopenTensorNCHW, 1⟩ ∧
    (TensorDescriptor.mk [2, 2, 4, 5] [160, 80, 20, 4] true .miopenHalf miopenTensorNCHW
        1).tensorLayout = miopenTensorNCHW :=
  ⟨(C23_from_json_frame fixtureEnumValues .null
      ⟨[2, 2, 4, 5], [160, 80, 20, 4], true, .miopenHalf, miopenTensorNCHWc4, 4⟩
      ⟨[], [], true, .miopenFloat, miopenTensorNCHW, 1⟩).2.2,
   ((C23_from_json_frame fixtureEnumValues
      (to_json fixtureEnumValues
        ⟨[2, 2, 4, 5], [160, 80, 20, 4], true, .miopenHalf, miopenTensorNCHWc4, 4⟩)
      ⟨[2, 2, 4, 5], [160, 80, 20, 4], true, .miopenHalf, miopenTensorNCHWc4, 4⟩
      ⟨[], [], true, .miopenFloat, miopenTensorNCHW, 1⟩).2.1
      ⟨[2, 2, 4, 5], [160, 80, 20, 4], true, .miopenHalf, miopenTensorNCHW, 1⟩ rfl).1⟩

end miopen
